import Mathlib

/-
  Verification of the CaLAN replication engine (src/include/multicast_sync.py,
  with persistence via src/main.py CalendarApp.save_tasks and
  src/include/ics_storage.py).

  Shallow embedding conventions:
  * Python task dicts become the `Task` structure; every wire field is an
    `Option JVal`, where `none` models an absent key and `some .null` a key
    present with JSON null (the code distinguishes the two in
    `_clean_remote_task`, which tests key presence, while `dict.get` tests
    nothing beyond absence).
  * Python dicts keyed by date strings become insertion-ordered association
    lists (`List (String × _)`); `setA` updates the first occurrence in place
    or appends, matching dict assignment, and `removeA` drops the key,
    matching `del`.
  * The mutable application state is `SyncState`: `appTasks` models
    `self.app.tasks` (the in-memory map) and `storage` models the persisted
    ICS file contents as read back by
    `IcsStorage.get_all_tasks_with_metadata` (a fresh parse on every call,
    so its dicts never alias `self.app.tasks`; Lean's value semantics model
    this directly).  `CalendarApp.save_tasks` writes `self.app.tasks`
    through the storage adapter, modeled as copying `appTasks` into
    `storage`.
  * `datetime.fromisoformat` followed by `.replace(tzinfo=None)` and
    comparison is modeled by `parseTimestamp`, which maps the ISO-8601
    shapes the program produces ("YYYY-MM-DD[ T]HH:MM[:SS[.ffffff]]" with an
    optional ignored UTC offset) to microseconds on a proleptic Gregorian
    axis; unparseable strings yield `none` (ValueError).  Non-string
    timestamp and date values are outside the model.
  * uuid.uuid4() and datetime.now() are nondeterministic inputs; the
    functions take them as explicit `freshId`/`now` parameters.
-/

namespace CaLAN

/-- A JSON scalar as carried in task dictionaries on the wire. -/
inductive JVal where
  | null
  | str (s : String)
  | bool (b : Bool)
deriving DecidableEq, Repr

/-- Python truthiness of a fetched dict value: absent keys and `None` are
falsy, strings are truthy iff nonempty, booleans are themselves. -/
def truthy : Option JVal → Bool
  | none => false
  | some .null => false
  | some (.str s) => !(s == "")
  | some (.bool b) => b

/-- The string content of a truthy string-valued field (used where the code
feeds the value to `datetime.fromisoformat` or uses it as a dict key). -/
def getStr? : Option JVal → Option String
  | some (.str s) => if s == "" then none else some s
  | _ => none

/-- One task record: the wire fields of `<task>` (spec §6), each `none` when
the key is absent from the dict. -/
structure Task where
  id : Option JVal := none
  description : Option JVal := none
  time : Option JVal := none
  color : Option JVal := none
  profile_name : Option JVal := none
  status : Option JVal := none
  created_at : Option JVal := none
  updated_at : Option JVal := none
  alarm : Option JVal := none
  alarm_time : Option JVal := none
  acknowledged : Option JVal := none
  date : Option JVal := none
  old_date : Option JVal := none
deriving DecidableEq, Repr

/-- The date bucket key of a task (`task_update.get("date")` followed by the
truthiness guards in `_apply_task_update` / `_handle_task_update`). -/
def dateOf (t : Task) : Option String := getStr? t.date

/-- The truthy `updated_at` string of a task, if any (the code guards every
timestamp comparison with `if remote_updated and local_updated`). -/
def updStr (t : Task) : Option String := getStr? t.updated_at

/-- Python `task.get("status") == "DELETED"`. -/
def statusDeleted (t : Task) : Bool := t.status == some (.str "DELETED")

/-- A Python dict is falsy iff empty; an empty task dict has every key
absent. -/
def taskIsEmpty (t : Task) : Bool := t == ({} : Task)

/-- Map from date string to task list: `self.app.tasks` and the snapshots
exchanged on the wire. -/
abbrev TaskMap := List (String × List Task)

/-- `self.sync_stats`. -/
structure SyncStats where
  sent : Nat := 0
  received : Nat := 0
  errors : Nat := 0
  error_dates : List String := []
deriving DecidableEq, Repr

/-- The replicated state of one instance: the in-memory task map, the
persisted ICS contents (read back as a task map, tombstones included), and
the sync statistics. -/
structure SyncState where
  appTasks : TaskMap := []
  storage : TaskMap := []
  stats : SyncStats := {}
deriving DecidableEq, Repr

/-- One entry of `self.peers`. -/
structure PeerRecord where
  ip : String := ""
  port : Nat := 0
  last_seen : String := ""
  name : String := ""
deriving DecidableEq, Repr

section AssocOps

variable {κ : Type} {α : Type} [DecidableEq κ]

/-- Dict lookup (`m[k]` / `k in m`): first occurrence wins. -/
def lookupA : List (κ × α) → κ → Option α
  | [], _ => none
  | (k', v) :: rest, k => if k' = k then some v else lookupA rest k

/-- Dict assignment `m[k] = v`: overwrite in place, else append, preserving
insertion order. -/
def setA : List (κ × α) → κ → α → List (κ × α)
  | [], k, v => [(k, v)]
  | (k', v') :: rest, k, v =>
    if k' = k then (k, v) :: rest else (k', v') :: setA rest k v

/-- Dict deletion `del m[k]`. -/
def removeA (m : List (κ × α)) (k : κ) : List (κ × α) :=
  m.filter (fun kv => kv.1 ≠ k)

end AssocOps

/-- Decimal digit value. -/
def digitVal? (c : Char) : Option Nat :=
  if c.isDigit then some (c.toNat - 48) else none

/-- Two decimal digits. -/
def parse2 : List Char → Option (Nat × List Char)
  | c1 :: c2 :: rest => do
    let a ← digitVal? c1
    let b ← digitVal? c2
    pure (a * 10 + b, rest)
  | _ => none

/-- Four decimal digits. -/
def parse4 : List Char → Option (Nat × List Char)
  | c1 :: c2 :: c3 :: c4 :: rest => do
    let a ← digitVal? c1
    let b ← digitVal? c2
    let c ← digitVal? c3
    let d ← digitVal? c4
    pure (((a * 10 + b) * 10 + c) * 10 + d, rest)
  | _ => none

/-- Expect one literal character. -/
def expectChar (c : Char) : List Char → Option (List Char)
  | x :: rest => if x = c then some rest else none
  | [] => none

/-- Gregorian leap year. -/
def isLeapYear (y : Nat) : Bool :=
  y % 4 == 0 && (!(y % 100 == 0) || y % 400 == 0)

/-- Length of a month. -/
def daysInMonth (y m : Nat) : Nat :=
  if m = 2 then (if isLeapYear y then 29 else 28)
  else if m = 4 ∨ m = 6 ∨ m = 9 ∨ m = 11 then 30
  else 31

/-- Days in the given year before the first of month `m`. -/
def daysBeforeMonth (y m : Nat) : Nat :=
  (List.range (m - 1)).foldl (fun acc i => acc + daysInMonth y (i + 1)) 0

/-- Days before January 1 of year `y` (year 1 is day zero). -/
def daysBeforeYear (y : Nat) : Nat :=
  ((y - 1) * 365 + (y - 1) / 4 + (y - 1) / 400) - (y - 1) / 100

/-- Microseconds on the naive (offset-stripped) time axis. -/
def toMicros (y mo d hh mi ss frac : Nat) : Nat :=
  ((((daysBeforeYear y + daysBeforeMonth y mo + (d - 1)) * 24 + hh) * 60 + mi)
      * 60 + ss) * 1000000 + frac

/-- Greedy run of decimal digits. -/
def takeDigits : List Char → (List Nat × List Char)
  | [] => ([], [])
  | c :: rest =>
    match digitVal? c with
    | some d =>
      let (ds, r) := takeDigits rest
      (d :: ds, r)
    | none => ([], c :: rest)

/-- Value of a fractional-second digit run, scaled to microseconds. -/
def fracMicros (ds : List Nat) : Nat :=
  (ds.foldl (fun acc d => acc * 10 + d) 0) * 10 ^ (6 - ds.length)

/-- An optional trailing UTC offset, which naive comparison ignores
(`replace(tzinfo=None)`). -/
def validOffsetTail : List Char → Bool
  | [] => true
  | ['Z'] => true
  | c :: rest =>
    if c = '+' ∨ c = '-' then
      match parse2 rest with
      | some (hh, rest2) =>
        match expectChar ':' rest2 with
        | some rest3 =>
          match parse2 rest3 with
          | some (mm, rest4) => rest4.isEmpty && decide (hh < 24) && decide (mm < 60)
          | none => false
        | none => false
      | none => false
    else false

/-- Optional fractional seconds then optional offset. -/
def parseFracAndOffset : List Char → Option Nat
  | '.' :: rest =>
    let (ds, r) := takeDigits rest
    if ds.length = 0 ∨ 6 < ds.length then none
    else if validOffsetTail r then some (fracMicros ds) else none
  | cs => if validOffsetTail cs then some 0 else none

/-- Seconds (optional) then fraction and offset; returns `ss * 10^6 + frac`. -/
def parseSecondsTail : List Char → Option Nat
  | ':' :: rest => do
    let (ss, r) ← parse2 rest
    if 59 < ss then none
    else do
      let frac ← parseFracAndOffset r
      pure (ss * 1000000 + frac)
  | cs => do
    let frac ← parseFracAndOffset cs
    pure frac

/-- Model of `datetime.fromisoformat` + `.replace(tzinfo=None)` followed by
conversion to a comparable instant: microseconds on the naive axis, `none`
for strings the parser rejects (ValueError). -/
def parseTimestamp (s : String) : Option Nat := do
  let (y, r1) ← parse4 s.data
  let r2 ← expectChar '-' r1
  let (mo, r3) ← parse2 r2
  let r4 ← expectChar '-' r3
  let (d, r5) ← parse2 r4
  if y = 0 ∨ mo = 0 ∨ 12 < mo ∨ d = 0 ∨ daysInMonth y mo < d then none
  else
    match r5 with
    | [] => pure (toMicros y mo d 0 0 0 0)
    | sep :: r6 =>
      if sep = 'T' ∨ sep = ' ' then do
        let (hh, r7) ← parse2 r6
        let r8 ← expectChar ':' r7
        let (mi, r9) ← parse2 r8
        if 23 < hh ∨ 59 < mi then none
        else do
          let tail ← parseSecondsTail r9
          pure (toMicros y mo d hh mi 0 0 + tail)
      else none

/-- `MulticastSync._clean_remote_task`: start from a copy of the incoming
dict and fill each missing key with its default; keys already present (even
with null or empty values) are left untouched.  `freshId` stands for
`str(uuid.uuid4())` and `now` for `datetime.now().isoformat()`. -/
def clean_remote_task (freshId now : String) (t : Task) : Task :=
  { t with
    id := some (t.id.getD (.str freshId))
    description := some (t.description.getD (.str "No description"))
    color := some (t.color.getD (.str "#4CAF50"))
    profile_name := some (t.profile_name.getD (.str "Unknown"))
    created_at := some (t.created_at.getD (.str now))
    updated_at := some (t.updated_at.getD (.str now))
    alarm := some (t.alarm.getD (.bool false))
    alarm_time := some (t.alarm_time.getD .null)
    acknowledged := some (t.acknowledged.getD (.bool false)) }

/-- The field-copy loop `for key, value in remote_task.items(): if key !=
"id": local_task[key] = value`: every key present in the remote dict
overwrites the local value, the id and locally-present keys absent from the
remote survive. -/
def overwriteFields (r lt : Task) : Task :=
  { id := lt.id
    description := r.description <|> lt.description
    time := r.time <|> lt.time
    color := r.color <|> lt.color
    profile_name := r.profile_name <|> lt.profile_name
    status := r.status <|> lt.status
    created_at := r.created_at <|> lt.created_at
    updated_at := r.updated_at <|> lt.updated_at
    alarm := r.alarm <|> lt.alarm
    alarm_time := r.alarm_time <|> lt.alarm_time
    acknowledged := r.acknowledged <|> lt.acknowledged
    date := r.date <|> lt.date
    old_date := r.old_date <|> lt.old_date }

/-- First task in a bucket whose id equals `tid` (`next((t for t in tasks
if t.get("id") == task_id), None)` and the `existing_index` scans). -/
def findTask (tid : JVal) : List Task → Option Task
  | [] => none
  | t :: ts => if t.id = some tid then some t else findTask tid ts

/-- Replace the first task whose id equals `tid`, or append when none
matches (`tasks[existing_index] = cleaned_task` / `tasks.append(...)`). -/
def upsertTask (tid : JVal) (c : Task) : List Task → List Task
  | [] => [c]
  | t :: ts => if t.id = some tid then c :: ts else t :: upsertTask tid c ts

/-- `[task for task in tasks if task.get("id") != task_id]`. -/
def removeTask (tid : JVal) (l : List Task) : List Task :=
  l.filter (fun t => t.id ≠ some tid)

/-- Mutate the first task whose id equals `tid` in place. -/
def mapFirstTask (tid : JVal) (f : Task → Task) : List Task → List Task
  | [] => []
  | t :: ts => if t.id = some tid then f t :: ts else t :: mapFirstTask tid f ts

/-- `{task.get("id") for task in local_tasks if task.get("id")}` (the set of
truthy local ids, computed once before the per-date merge loop). -/
def bucketIds (l : List Task) : List JVal :=
  l.filterMap (fun t => if truthy t.id then t.id else none)

/-- `CalendarApp.save_tasks` → `IcsStorage.save_tasks(self.app.tasks)`:
persistence writes the in-memory map through the store adapter; modeled as
copying `appTasks` into `storage`. -/
def save_tasks (st : SyncState) : SyncState :=
  { st with storage := st.appTasks }

/-- The `delete` branch of `_apply_task_update`: remove the task only if it
exists, drop the bucket when it empties, and persist only when a removal
happened. -/
def applyDelete (tid : JVal) (date_str : String) (st : SyncState) : SyncState :=
  match lookupA st.appTasks date_str with
  | none => st
  | some bucket =>
    if bucket.any (fun t => t.id == some tid) then
      let newBucket := removeTask tid bucket
      let m :=
        if newBucket.length = 0 then removeA st.appTasks date_str
        else setA st.appTasks date_str newBucket
      save_tasks { st with appTasks := m }
    else st

/-- The insertion half of the `move` branch: ensure the new date bucket
exists, then replace the task at its index or append it. -/
def moveInsert (freshId now : String) (u : Task) (tid : JVal) (date_str : String)
    (m : TaskMap) : TaskMap :=
  setA m date_str
    (upsertTask tid (clean_remote_task freshId now u) ((lookupA m date_str).getD []))

/-- The removal half of the `move` branch: if the old date exists, filter the
task id out of its bucket and drop the bucket when it empties. -/
def moveRemoveOld (tid : JVal) (od : String) (m : TaskMap) : TaskMap :=
  match lookupA m od with
  | none => m
  | some ob =>
    let nb := removeTask tid ob
    if nb.length = 0 then removeA m od else setA m od nb

/-- The `move` branch of `_apply_task_update`: insert/replace under the new
date first, then remove from the (truthy) old date, and persist. -/
def applyMove (freshId now : String) (u : Task) (tid : JVal) (date_str : String)
    (st : SyncState) : SyncState :=
  let m1 := moveInsert freshId now u tid date_str st.appTasks
  let m2 :=
    match getStr? u.old_date with
    | none => m1
    | some od => moveRemoveOld tid od m1
  save_tasks { st with appTasks := m2 }

/-- The timestamp guard of the `update` branch: skip iff both `updated_at`
values are truthy and parse and the remote is not strictly newer
(`remote_time <= local_time`); a ValueError proceeds with the update. -/
def updateSkips (u lt : Task) : Bool :=
  match updStr u, updStr lt with
  | some ru, some lu =>
    match parseTimestamp ru, parseTimestamp lu with
    | some rt, some ltv => rt ≤ ltv
    | _, _ => false
  | _, _ => false

/-- The add/update (and unrecognized-operation) branch of
`_apply_task_update`: only `operation == "update"` checks timestamps;
`add` and anything else overwrites unconditionally. -/
def applyAddUpdate (freshId now : String) (u : Task) (operation : String)
    (tid : JVal) (date_str : String) (st : SyncState) : SyncState :=
  let bucket0 := (lookupA st.appTasks date_str).getD []
  let cleaned := clean_remote_task freshId now u
  let apply_it : SyncState :=
    save_tasks
      { st with appTasks := setA st.appTasks date_str (upsertTask tid cleaned bucket0) }
  match findTask tid bucket0 with
  | some lt => if operation = "update" && updateSkips u lt then st else apply_it
  | none => apply_it

/-- `MulticastSync._apply_task_update` (single-task reconciliation, the
`task_update` path for operations other than `full_sync`).  `u` is the
message's task dict, `operation` the message's operation string; a missing
or falsy id or date is dropped with a warning. -/
def apply_task_update (freshId now : String) (u : Task) (operation : String)
    (st : SyncState) : SyncState :=
  match u.id, dateOf u with
  | some tid, some date_str =>
    if ¬ truthy (some tid) then st
    else if operation = "delete" then applyDelete tid date_str st
    else if operation = "move" then applyMove freshId now u tid date_str st
    else applyAddUpdate freshId now u operation tid date_str st
  | _, _ => st

/-- The per-remote-task body of `_merge_tasks` for a date that already
exists locally: `ids` is the id set computed once from the original bucket;
the live bucket, the error counter and the merged flag are threaded
through. -/
def mergeBucketStep (freshId now : String) (ids : List JVal) (r : Task) :
    List Task × SyncStats × Bool → List Task × SyncStats × Bool
  | (bucket, stats, merged) =>
    match r.id with
    | some rid =>
      if ¬ truthy (some rid) then (bucket, stats, merged)
      else if rid ∉ ids then
        -- Only add tasks that do not exist locally.
        (bucket ++ [clean_remote_task freshId now r], stats, true)
      else
        match findTask rid bucket with
        | none => (bucket, stats, merged)
        | some lt =>
          match updStr r, updStr lt with
          | some ru, some lu =>
            match parseTimestamp ru, parseTimestamp lu with
            | some rt, some ltv =>
              if ltv < rt then
                (mapFirstTask rid (overwriteFields r) bucket, stats, true)
              else (bucket, stats, merged)
            | _, _ =>
              -- ValueError: count the failure, leave the task alone.
              (bucket, { stats with errors := stats.errors + 1 }, merged)
          | some _, none =>
            -- Local task has no timestamp: take the remote copy.
            (mapFirstTask rid (overwriteFields r) bucket, stats, true)
          | none, _ => (bucket, stats, merged)
    | none => (bucket, stats, merged)

/-- The inner loop of `_merge_tasks` over one date's remote task list. -/
def mergeIntoBucket (freshId now : String) (ids : List JVal) :
    List Task → List Task × SyncStats × Bool → List Task × SyncStats × Bool
  | [], acc => acc
  | r :: rest, acc =>
    mergeIntoBucket freshId now ids rest (mergeBucketStep freshId now ids r acc)

/-- One date entry of the `_merge_tasks` outer loop. -/
def mergeDateStep (freshId now : String) (date_str : String) (rlist : List Task) :
    TaskMap × SyncStats × Bool → TaskMap × SyncStats × Bool
  | (a, stats, merged) =>
    match lookupA a date_str with
    | none =>
      -- New date: add every remote task, cleaned.
      (setA a date_str (rlist.map (clean_remote_task freshId now)), stats, true)
    | some bucket =>
      let res := mergeIntoBucket freshId now (bucketIds bucket) rlist (bucket, stats, merged)
      (setA a date_str res.1, res.2.1, res.2.2)

/-- The per-date loop of `_merge_tasks`. -/
def mergeTasksLoop (freshId now : String) :
    TaskMap → TaskMap × SyncStats × Bool → TaskMap × SyncStats × Bool
  | [], acc => acc
  | (date_str, rlist) :: rest, acc =>
    mergeTasksLoop freshId now rest (mergeDateStep freshId now date_str rlist acc)

/-- `MulticastSync._merge_tasks` (the lightweight `sync_response` merge
path): merge the remote snapshot into `self.app.tasks`, then persist once
if anything changed. -/
def merge_tasks (freshId now : String) (remote : TaskMap) (st : SyncState) :
    SyncState :=
  let (a, stats, merged) := mergeTasksLoop freshId now remote (st.appTasks, st.stats, false)
  let st' := { st with appTasks := a, stats := stats }
  if merged then save_tasks st' else st'

/-- Insertion-ordered id-keyed map building (`remote_task_map[task_id] =
{...}`): later assignments overwrite in place. -/
def insertById (m : List (JVal × (Task × String))) (k : JVal)
    (v : Task × String) : List (JVal × (Task × String)) :=
  setA m k v

/-- The id-indexed view built by `_full_merge_tasks` over a task map, taking
only tasks with a truthy id. -/
def buildIdMap (tm : TaskMap) : List (JVal × (Task × String)) :=
  tm.foldl
    (fun acc e =>
      e.2.foldl
        (fun acc t =>
          match t.id with
          | some tid => if truthy (some tid) then insertById acc tid (t, e.1) else acc
          | none => acc)
        acc)
    []

/-- One iteration of the `_full_merge_tasks` loop.  In the source, the
tombstone-propagation branch (`local_task["status"] = "DELETED"`) and the
newer-remote branch mutate dicts freshly parsed from the ICS file by
`get_all_tasks_with_metadata`; those dicts are discarded when the function
returns, so only the `merged` flag (and log counters) observe these
branches.  Only the task-absent-locally branch touches `self.app.tasks`. -/
def fullMergeStep (freshId now : String) (lmap : List (JVal × (Task × String)))
    (tid : JVal) (r : Task) (rdate : String) (am : TaskMap × Bool) : TaskMap × Bool :=
  match lookupA lmap tid with
  | some lv =>
    if statusDeleted r ∧ ¬ statusDeleted lv.1 then
      -- "Mark local task as deleted": mutates the transient parse only.
      (am.1, true)
    else
      match updStr r, updStr lv.1 with
      | some ru, some lu =>
        match parseTimestamp ru, parseTimestamp lu with
        | some rt, some ltv =>
          -- "Update local task with remote changes": transient as well.
          if ltv < rt then (am.1, true) else am
        | _, _ => am  -- ValueError: skip update
      | _, _ => am
  | none =>
    if statusDeleted r then am  -- do not resurrect tombstones
    else
      (setA am.1 rdate (((lookupA am.1 rdate).getD []) ++ [clean_remote_task freshId now r]),
        true)

/-- The main loop of `_full_merge_tasks` over the remote id map. -/
def fullMergeLoop (freshId now : String) (lmap : List (JVal × (Task × String))) :
    List (JVal × (Task × String)) → TaskMap × Bool → TaskMap × Bool
  | [], acc => acc
  | (tid, (r, rdate)) :: rest, am =>
    fullMergeLoop freshId now lmap rest (fullMergeStep freshId now lmap tid r rdate am)

/-- `MulticastSync._full_merge_tasks`: full reconciliation against the
stored snapshot (tombstones included), persisting once when anything was
flagged as merged. -/
def full_merge_tasks (freshId now : String) (remote : TaskMap) (st : SyncState) :
    SyncState :=
  let lmap := buildIdMap st.storage
  let rmap := buildIdMap remote
  let (a, merged) := fullMergeLoop freshId now lmap rmap (st.appTasks, false)
  let st' := { st with appTasks := a }
  if merged then save_tasks st' else st'

/-- `MulticastSync._handle_task_update`: count received full_sync messages
from other senders, route `full_sync` operations through the full merge
(wrapping the single task as a one-date map) and everything else through
`_apply_task_update`.  An absent or empty task dict is ignored. -/
def handle_task_update (selfName freshId now sender : String) (u : Option Task)
    (operation : Option String) (st : SyncState) : SyncState :=
  match u with
  | none => st
  | some t =>
    if taskIsEmpty t then st
    else
      let op := operation.getD "update"
      let st1 :=
        if op = "full_sync" ∧ sender ≠ selfName then
          { st with stats := { st.stats with received := st.stats.received + 1 } }
        else st
      if op = "full_sync" then
        match dateOf t with
        | some d => full_merge_tasks freshId now [(d, [t])] st1
        | none => st1
      else apply_task_update freshId now t op st1

/-- A decoded wire envelope (§6); `mtype` is the `type` discriminant. -/
structure SyncMessage where
  mtype : Option String := none
  sender : String := ""
  tasks : Option TaskMap := none
  task : Option Task := none
  operation : Option String := none

/-- `MulticastSync._handle_message`: `none` models a payload `json.loads`
rejects (dropped with a warning).  `sync_request`, `test_message` and
`full_sync_request` only send replies or log, leaving the task state
unchanged (their outbound traffic and the `sent` counter are outside this
model); unknown types are dropped. -/
def handle_message (selfName freshId now : String) (msg : Option SyncMessage)
    (st : SyncState) : SyncState :=
  match msg with
  | none => st
  | some m =>
    match m.mtype with
    | none => st  -- message.get("type") missing: unknown type, dropped
    | some mt =>
      if mt = "sync_request" then st
      else if mt = "sync_response" then
        match m.tasks with
        | some rt => if rt.isEmpty then st else merge_tasks freshId now rt st
        | none => st
      else if mt = "task_update" then
        handle_task_update selfName freshId now m.sender m.task m.operation st
      else st  -- test_message / full_sync_request / unknown: no task-state change

/-- `MulticastSync._cleanup_stale_peers`: drop every peer whose parsed
`last_seen` predates `now - 120` seconds, and every peer whose `last_seen`
does not parse.  `now` is in microseconds on the same axis as
`parseTimestamp`, so the 120-second window is 120,000,000 µs. -/
def cleanup_stale_peers (now : Int) (peers : List (String × PeerRecord)) :
    List (String × PeerRecord) :=
  let cutoff : Int := now - 120 * 1000000
  peers.filter (fun p =>
    match parseTimestamp p.2.last_seen with
    | some ts => decide (cutoff ≤ (ts : Int))
    | none => false)

section AssocLemmas

variable {κ : Type} {α : Type} [DecidableEq κ]

lemma lookupA_setA_self (m : List (κ × α)) (k : κ) (v : α) :
    lookupA (setA m k v) k = some v := by
  induction m with
  | nil => simp [setA, lookupA]
  | cons e rest ih =>
    obtain ⟨k', v'⟩ := e
    by_cases h : k' = k
    · simp [setA, h, lookupA]
    · simp [setA, h, lookupA, ih]

lemma lookupA_setA_ne (m : List (κ × α)) (k k' : κ) (v : α) (h : k' ≠ k) :
    lookupA (setA m k v) k' = lookupA m k' := by
  induction m with
  | nil => simp [setA, lookupA, Ne.symm h]
  | cons e rest ih =>
    obtain ⟨k0, v0⟩ := e
    by_cases h0 : k0 = k
    · subst h0
      simp [setA, lookupA, Ne.symm h]
    · simp [setA, h0, lookupA, ih]

lemma setA_setA_self (m : List (κ × α)) (k : κ) (v w : α) :
    setA (setA m k v) k w = setA m k w := by
  induction m with
  | nil => simp [setA]
  | cons e rest ih =>
    obtain ⟨k0, v0⟩ := e
    by_cases h0 : k0 = k
    · simp [setA, h0]
    · simp [setA, h0, ih]

lemma setA_eq_of_lookupA (m : List (κ × α)) (k : κ) (v : α)
    (h : lookupA m k = some v) : setA m k v = m := by
  induction m with
  | nil => simp [lookupA] at h
  | cons e rest ih =>
    obtain ⟨k0, v0⟩ := e
    by_cases h0 : k0 = k
    · subst h0
      simp [lookupA] at h
      simp [setA, h]
    · simp [lookupA, h0] at h
      simp [setA, h0, ih h]

lemma lookupA_removeA_self (m : List (κ × α)) (k : κ) :
    lookupA (removeA m k) k = none := by
  induction m with
  | nil => simp [removeA, lookupA]
  | cons e rest ih =>
    obtain ⟨k0, v0⟩ := e
    by_cases h0 : k0 = k
    · simpa [removeA, h0] using ih
    · simpa [removeA, lookupA, h0] using ih

lemma lookupA_removeA_ne (m : List (κ × α)) (k k' : κ) (h : k' ≠ k) :
    lookupA (removeA m k) k' = lookupA m k' := by
  induction m with
  | nil => simp [removeA]
  | cons e rest ih =>
    obtain ⟨k0, v0⟩ := e
    by_cases h0 : k0 = k
    · subst h0
      simpa [removeA, lookupA, Ne.symm h] using ih
    · simp [removeA, ne_eq, decide_not] at ih
      simp [removeA, h0, lookupA, ih]

lemma removeA_setA_self (m : List (κ × α)) (k : κ) (v : α) :
    removeA (setA m k v) k = removeA m k := by
  induction m with
  | nil => simp [setA, removeA]
  | cons e rest ih =>
    obtain ⟨k0, v0⟩ := e
    by_cases h0 : k0 = k
    · simp [setA, removeA, h0]
    · simp [removeA, ne_eq, decide_not] at ih
      simp [setA, removeA, h0, ih]

lemma removeA_removeA_self (m : List (κ × α)) (k : κ) :
    removeA (removeA m k) k = removeA m k := by
  simp [removeA, List.filter_filter]

end AssocLemmas

lemma findTask_upsertTask_self (tid : JVal) (c : Task) (l : List Task)
    (hc : c.id = some tid) : findTask tid (upsertTask tid c l) = some c := by
  induction l with
  | nil => simp [upsertTask, findTask, hc]
  | cons t ts ih =>
    by_cases h : t.id = some tid
    · simp [upsertTask, h, findTask, hc]
    · simp [upsertTask, h, findTask, ih]

lemma upsertTask_upsertTask_self (tid : JVal) (c : Task) (l : List Task)
    (hc : c.id = some tid) :
    upsertTask tid c (upsertTask tid c l) = upsertTask tid c l := by
  induction l with
  | nil => simp [upsertTask, hc]
  | cons t ts ih =>
    by_cases h : t.id = some tid
    · simp [upsertTask, h, hc]
    · simp [upsertTask, h, ih]

lemma removeTask_upsertTask_self (tid : JVal) (c : Task) (l : List Task)
    (hc : c.id = some tid) :
    removeTask tid (upsertTask tid c l) = removeTask tid l := by
  induction l with
  | nil => simp [upsertTask, removeTask, hc]
  | cons t ts ih =>
    by_cases h : t.id = some tid
    · simp [upsertTask, removeTask, h, hc]
    · simp [removeTask, ne_eq, decide_not] at ih
      simp [upsertTask, removeTask, h, ih]

lemma removeTask_removeTask_self (tid : JVal) (l : List Task) :
    removeTask tid (removeTask tid l) = removeTask tid l := by
  simp [removeTask, List.filter_filter]

lemma any_removeTask_self (tid : JVal) (l : List Task) :
    (removeTask tid l).any (fun t => t.id == some tid) = false := by
  induction l with
  | nil => simp [removeTask]
  | cons t ts ih =>
    by_cases h : t.id = some tid
    · simp [removeTask] at ih
      simp [removeTask, h, ih]
    · simp [removeTask] at ih
      simp [removeTask, h, ih]

lemma getStr?_eq_some {o : Option JVal} {s : String} (h : getStr? o = some s) :
    o = some (.str s) := by
  match o with
  | none => simp [getStr?] at h
  | some .null => simp [getStr?] at h
  | some (.bool b) => simp [getStr?] at h
  | some (.str s') =>
    by_cases he : s' = ""
    · simp [getStr?, he] at h
    · simp [getStr?, he] at h
      simp [h]

lemma clean_remote_task_id (f n : String) (u : Task) (tid : JVal)
    (h : u.id = some tid) : (clean_remote_task f n u).id = some tid := by
  simp [clean_remote_task, h]

lemma clean_remote_task_updStr (f n : String) (u : Task) (ru : String)
    (h : updStr u = some ru) :
    updStr (clean_remote_task f n u) = some ru := by
  have he := getStr?_eq_some h
  rw [updStr] at h ⊢
  rw [he] at h
  simpa [clean_remote_task, he] using h

lemma applyDelete_idem (tid : JVal) (d : String) (st : SyncState) :
    applyDelete tid d (applyDelete tid d st) = applyDelete tid d st := by
  rcases hb : lookupA st.appTasks d with _ | bucket
  · have h1 : applyDelete tid d st = st := by simp [applyDelete, hb]
    rw [h1]; exact h1
  · by_cases ha : bucket.any (fun t => t.id == some tid)
    · by_cases hlen : (removeTask tid bucket).length = 0
      · have h1 : applyDelete tid d st
            = save_tasks { st with appTasks := removeA st.appTasks d } := by
          simp [applyDelete, hb, ha, hlen]
        rw [h1]
        simp [applyDelete, save_tasks, lookupA_removeA_self]
      · have h1 : applyDelete tid d st
            = save_tasks { st with appTasks := setA st.appTasks d (removeTask tid bucket) } := by
          simp [applyDelete, hb, ha, hlen]
        rw [h1]
        simp [applyDelete, save_tasks, lookupA_setA_self, any_removeTask_self]
    · have h1 : applyDelete tid d st = st := by simp [applyDelete, hb, ha]
      rw [h1]; exact h1

lemma applyAddUpdate_idem (f n : String) (u : Task) (op : String) (tid : JVal)
    (d : String) (st : SyncState) (hid : u.id = some tid) :
    applyAddUpdate f n u op tid d (applyAddUpdate f n u op tid d st)
      = applyAddUpdate f n u op tid d st := by
  have hcid := clean_remote_task_id f n u tid hid
  by_cases hskip : ∃ lt, findTask tid ((lookupA st.appTasks d).getD []) = some lt
      ∧ (op = "update" && updateSkips u lt) = true
  · obtain ⟨lt, hf, hs⟩ := hskip
    have h1 : applyAddUpdate f n u op tid d st = st := by
      simp [applyAddUpdate, hf, hs]
    rw [h1]; exact h1
  · push_neg at hskip
    have h1 : applyAddUpdate f n u op tid d st = save_tasks { st with appTasks := setA st.appTasks d (upsertTask tid (clean_remote_task f n u) ((lookupA st.appTasks d).getD [])) } := by
      rcases hf : findTask tid ((lookupA st.appTasks d).getD []) with _ | lt
      · simp [applyAddUpdate, hf]
      · have hns := hskip lt hf
        simp [applyAddUpdate, hf, hns]
    rw [h1]
    simp [applyAddUpdate, save_tasks, lookupA_setA_self,
      findTask_upsertTask_self _ _ _ hcid, upsertTask_upsertTask_self _ _ _ hcid,
      setA_setA_self]

lemma removeA_eq_self_of_lookupA_none {κ α : Type} [DecidableEq κ]
    (m : List (κ × α)) (k : κ) (h : lookupA m k = none) : removeA m k = m := by
  induction m with
  | nil => rfl
  | cons e rest ih =>
    obtain ⟨k0, v0⟩ := e
    rw [lookupA] at h
    by_cases h0 : k0 = k
    · rw [if_pos h0] at h
      exact absurd h (by simp)
    · rw [if_neg h0] at h
      have h2 := ih h
      simp only [removeA] at h2 ⊢
      rw [List.filter_cons, if_pos (by simp [h0]), h2]

lemma lookupA_moveRemoveOld_ne (tid : JVal) (od d : String) (m : TaskMap)
    (h : d ≠ od) : lookupA (moveRemoveOld tid od m) d = lookupA m d := by
  rcases hob : lookupA m od with _ | ob
  · simp only [moveRemoveOld, hob]
  · simp only [moveRemoveOld, hob]
    by_cases hlen : (removeTask tid ob).length = 0
    · simp [hlen, lookupA_removeA_ne _ _ _ h]
    · simp [hlen, lookupA_setA_ne _ _ _ _ h]

lemma moveInsert_fixpoint (f n : String) (u : Task) (tid : JVal) (d : String)
    (m : TaskMap) (b : List Task) (hid : u.id = some tid)
    (h : lookupA m d = some (upsertTask tid (clean_remote_task f n u) b)) :
    moveInsert f n u tid d m = m := by
  rw [moveInsert, h, Option.getD_some,
    upsertTask_upsertTask_self _ _ _ (clean_remote_task_id f n u tid hid)]
  exact setA_eq_of_lookupA _ _ _ h

lemma moveRemoveOld_idem (tid : JVal) (od : String) (m : TaskMap) :
    moveRemoveOld tid od (moveRemoveOld tid od m) = moveRemoveOld tid od m := by
  rcases hob : lookupA m od with _ | ob
  · have h1 : moveRemoveOld tid od m = m := by simp only [moveRemoveOld, hob]
    rw [h1]; exact h1
  · by_cases hlen : (removeTask tid ob).length = 0
    · have h1 : moveRemoveOld tid od m = removeA m od := by
        simp only [moveRemoveOld, hob]
        simp [hlen]
      rw [h1]
      have h2 : lookupA (removeA m od) od = none := lookupA_removeA_self _ _
      simp only [moveRemoveOld, h2]
    · have h1 : moveRemoveOld tid od m = setA m od (removeTask tid ob) := by
        simp only [moveRemoveOld, hob]
        simp [hlen]
      rw [h1]
      have h2 : lookupA (setA m od (removeTask tid ob)) od = some (removeTask tid ob) :=
        lookupA_setA_self _ _ _
      simp only [moveRemoveOld, h2]
      simp [removeTask_removeTask_self, hlen, setA_setA_self]

lemma moveRemoveOld_moveInsert (f n : String) (u : Task) (tid : JVal) (d : String)
    (m : TaskMap) (hid : u.id = some tid) :
    moveRemoveOld tid d (moveInsert f n u tid d m) = moveRemoveOld tid d m := by
  have hcid := clean_remote_task_id f n u tid hid
  rcases hob : lookupA m d with _ | ob
  · -- the new bucket did not exist: the second step tears it down again
    have hI : moveInsert f n u tid d m = setA m d [clean_remote_task f n u] := by
      simp only [moveInsert, hob, Option.getD_none, upsertTask]
    have hl : lookupA (setA m d [clean_remote_task f n u]) d
        = some [clean_remote_task f n u] := lookupA_setA_self _ _ _
    have hrm : removeTask tid [clean_remote_task f n u] = [] := by
      simp [removeTask, hcid]
    have hR1 : moveRemoveOld tid d (setA m d [clean_remote_task f n u])
        = removeA m d := by
      simp only [moveRemoveOld, hl, hrm]
      simp [removeA_setA_self]
    have hRm : moveRemoveOld tid d m = m := by simp only [moveRemoveOld, hob]
    rw [hI, hR1, hRm]
    exact removeA_eq_self_of_lookupA_none _ _ hob
  · have hI : moveInsert f n u tid d m
        = setA m d (upsertTask tid (clean_remote_task f n u) ob) := by
      simp only [moveInsert, hob, Option.getD_some]
    have hl : lookupA (setA m d (upsertTask tid (clean_remote_task f n u) ob)) d
        = some (upsertTask tid (clean_remote_task f n u) ob) := lookupA_setA_self _ _ _
    have hrm : removeTask tid (upsertTask tid (clean_remote_task f n u) ob)
        = removeTask tid ob := removeTask_upsertTask_self _ _ _ hcid
    rw [hI]
    by_cases hlen : (removeTask tid ob).length = 0
    · have hL : moveRemoveOld tid d (setA m d (upsertTask tid (clean_remote_task f n u) ob))
          = removeA m d := by
        simp only [moveRemoveOld, hl, hrm]
        simp [hlen, removeA_setA_self]
      have hRr : moveRemoveOld tid d m = removeA m d := by
        simp only [moveRemoveOld, hob]
        simp [hlen]
      rw [hL, hRr]
    · have hL : moveRemoveOld tid d (setA m d (upsertTask tid (clean_remote_task f n u) ob))
          = setA m d (removeTask tid ob) := by
        simp only [moveRemoveOld, hl, hrm]
        simp [hlen, setA_setA_self]
      have hRr : moveRemoveOld tid d m = setA m d (removeTask tid ob) := by
        simp only [moveRemoveOld, hob]
        simp [hlen]
      rw [hL, hRr]

lemma applyMove_idem (f n : String) (u : Task) (tid : JVal) (d : String)
    (st : SyncState) (hid : u.id = some tid) :
    applyMove f n u tid d (applyMove f n u tid d st) = applyMove f n u tid d st := by
  have hcid := clean_remote_task_id f n u tid hid
  have hm1d : lookupA (moveInsert f n u tid d st.appTasks) d
      = some (upsertTask tid (clean_remote_task f n u) ((lookupA st.appTasks d).getD [])) := by
    rw [moveInsert]; exact lookupA_setA_self _ _ _
  rcases hod : getStr? u.old_date with _ | od
  · -- no truthy old_date: no removal step
    have h1 : applyMove f n u tid d st = save_tasks { st with appTasks := moveInsert f n u tid d st.appTasks } := by
      simp [applyMove, hod]
    rw [h1]
    have h2 : moveInsert f n u tid d (moveInsert f n u tid d st.appTasks)
        = moveInsert f n u tid d st.appTasks :=
      moveInsert_fixpoint f n u tid d _ _ hid hm1d
    simp [applyMove, save_tasks, hod, h2]
  · by_cases hde : od = d
    · -- degenerate move whose old date equals the new date
      subst hde
      have h1 : applyMove f n u tid od st = save_tasks { st with appTasks := moveRemoveOld tid od (moveInsert f n u tid od st.appTasks) } := by
        simp [applyMove, hod]
      rw [h1]
      have h2 : moveRemoveOld tid od
            (moveInsert f n u tid od (moveRemoveOld tid od (moveInsert f n u tid od st.appTasks)))
          = moveRemoveOld tid od (moveInsert f n u tid od st.appTasks) := by
        rw [moveRemoveOld_moveInsert f n u tid od _ hid, moveRemoveOld_idem]
      simp [applyMove, save_tasks, hod, h2]
    · -- distinct old and new dates
      have h1 : applyMove f n u tid d st = save_tasks { st with appTasks := moveRemoveOld tid od (moveInsert f n u tid d st.appTasks) } := by
        simp [applyMove, hod]
      rw [h1]
      have hl : lookupA (moveRemoveOld tid od (moveInsert f n u tid d st.appTasks)) d
          = some (upsertTask tid (clean_remote_task f n u) ((lookupA st.appTasks d).getD [])) := by
        rw [lookupA_moveRemoveOld_ne tid od d _ (Ne.symm hde)]; exact hm1d
      have h2 : moveInsert f n u tid d (moveRemoveOld tid od (moveInsert f n u tid d st.appTasks))
          = moveRemoveOld tid od (moveInsert f n u tid d st.appTasks) :=
        moveInsert_fixpoint f n u tid d _ _ hid hl
      simp [applyMove, save_tasks, hod, h2, moveRemoveOld_idem]

lemma upsertTask_of_findTask_none (tid : JVal) (c : Task) (l : List Task)
    (h : findTask tid l = none) : upsertTask tid c l = l ++ [c] := by
  induction l with
  | nil => rfl
  | cons t ts ih =>
    rw [findTask] at h
    by_cases h0 : t.id = some tid
    · rw [if_pos h0] at h
      exact absurd h (by simp)
    · rw [if_neg h0] at h
      simp [upsertTask, h0, ih h]

lemma mem_removeTask_ne (tid : JVal) (l : List Task) (t : Task)
    (h : t ∈ removeTask tid l) : t.id ≠ some tid := by
  simp only [removeTask, List.mem_filter] at h
  simpa using h.2

lemma applyDelete_stats (tid : JVal) (d : String) (st : SyncState) :
    (applyDelete tid d st).stats = st.stats := by
  rw [applyDelete]
  split
  · rfl
  · split <;> rfl

lemma applyMove_stats (f n : String) (u : Task) (tid : JVal) (d : String)
    (st : SyncState) : (applyMove f n u tid d st).stats = st.stats := rfl

lemma applyAddUpdate_stats (f n : String) (u : Task) (op : String) (tid : JVal)
    (d : String) (st : SyncState) :
    (applyAddUpdate f n u op tid d st).stats = st.stats := by
  rw [applyAddUpdate]
  split
  · split <;> rfl
  · rfl

lemma apply_task_update_stats (f n : String) (u : Task) (op : String)
    (st : SyncState) : (apply_task_update f n u op st).stats = st.stats := by
  rw [apply_task_update]
  split
  · split
    · rfl
    · split
      · exact applyDelete_stats _ _ _
      · split
        · exact applyMove_stats _ _ _ _ _ _
        · exact applyAddUpdate_stats _ _ _ _ _ _ _
  · rfl

lemma full_merge_tasks_stats (f n : String) (remote : TaskMap) (st : SyncState) :
    (full_merge_tasks f n remote st).stats = st.stats := by
  rw [full_merge_tasks]
  split
  simp only [save_tasks]
  split <;> rfl

/-- Each `_merge_tasks` inner step leaves every SyncStats field but `errors`
alone, and bumps `errors` by zero or one. -/
lemma mergeBucketStep_stats (f n : String) (ids : List JVal) (r : Task)
    (bucket : List Task) (stats : SyncStats) (merged : Bool) :
    (mergeBucketStep f n ids r (bucket, stats, merged)).2.1 = stats ∨
    (mergeBucketStep f n ids r (bucket, stats, merged)).2.1
      = { stats with errors := stats.errors + 1 } := by
  rw [mergeBucketStep]
  rcases hr : r.id with _ | rid
  · simp only [hr]
    exact Or.inl (by trivial)
  · simp only [hr]
    by_cases ht : ¬ truthy (some rid)
    · rw [if_pos ht]
      exact Or.inl (by trivial)
    · rw [if_neg ht]
      by_cases hmem : rid ∉ ids
      · rw [if_pos hmem]
        exact Or.inl (by trivial)
      · rw [if_neg hmem]
        rcases hf : findTask rid bucket with _ | lt
        · simp only [hf]
          exact Or.inl (by trivial)
        · simp only [hf]
          rcases hru : updStr r with _ | ru <;> rcases hlu : updStr lt with _ | lu <;>
            simp only [hru, hlu]
          · exact Or.inl (by trivial)
          · exact Or.inl (by trivial)
          · exact Or.inl (by trivial)
          · rcases hpr : parseTimestamp ru with _ | rt <;>
              rcases hpl : parseTimestamp lu with _ | ltv <;> simp only [hpr, hpl]
            · exact Or.inr (by trivial)
            · exact Or.inr (by trivial)
            · exact Or.inr (by trivial)
            · split
              · exact Or.inl (by trivial)
              · exact Or.inl (by trivial)

lemma mergeIntoBucket_stats (f n : String) (ids : List JVal) (remotes : List Task)
    (bucket : List Task) (stats : SyncStats) (merged : Bool) :
    ∃ k, (mergeIntoBucket f n ids remotes (bucket, stats, merged)).2.1
      = { stats with errors := stats.errors + k } := by
  induction remotes generalizing bucket stats merged with
  | nil => exact ⟨0, rfl⟩
  | cons r rest ih =>
    rw [mergeIntoBucket]
    rcases hs : mergeBucketStep f n ids r (bucket, stats, merged) with ⟨b1, s1, m1⟩
    rcases mergeBucketStep_stats f n ids r bucket stats merged with h | h <;>
        rw [hs] at h <;> simp only at h
    · obtain ⟨k, hk⟩ := ih b1 s1 m1
      exact ⟨k, by rw [hk, h]⟩
    · obtain ⟨k, hk⟩ := ih b1 s1 m1
      refine ⟨1 + k, ?_⟩
      rw [hk, h]
      simp [Nat.add_assoc]

lemma mergeDateStep_stats (f n : String) (d : String) (rlist : List Task)
    (a : TaskMap) (stats : SyncStats) (merged : Bool) :
    ∃ k, (mergeDateStep f n d rlist (a, stats, merged)).2.1
      = { stats with errors := stats.errors + k } := by
  rw [mergeDateStep]
  rcases hb : lookupA a d with _ | bucket
  · exact ⟨0, rfl⟩
  · simpa using mergeIntoBucket_stats f n (bucketIds bucket) rlist bucket stats merged

lemma mergeTasksLoop_stats (f n : String) (entries : TaskMap) (a : TaskMap)
    (stats : SyncStats) (merged : Bool) :
    ∃ k, (mergeTasksLoop f n entries (a, stats, merged)).2.1
      = { stats with errors := stats.errors + k } := by
  induction entries generalizing a stats merged with
  | nil => exact ⟨0, rfl⟩
  | cons e rest ih =>
    obtain ⟨d0, rl⟩ := e
    rw [mergeTasksLoop]
    rcases hs : mergeDateStep f n d0 rl (a, stats, merged) with ⟨a1, s1, m1⟩
    obtain ⟨j, hj⟩ := mergeDateStep_stats f n d0 rl a stats merged
    rw [hs] at hj
    simp only at hj
    subst hj
    obtain ⟨k, hk⟩ := ih a1 _ m1
    exact ⟨j + k, by rw [hk]; simp [Nat.add_assoc]⟩

/-- `_merge_tasks` can only bump the `errors` counter: `error_dates`, `sent`
and `received` are untouched (the source appends to `error_dates` only in
the outer exception handler). -/
lemma merge_tasks_stats (f n : String) (remote : TaskMap) (st : SyncState) :
    ∃ k, (merge_tasks f n remote st).stats
      = { st.stats with errors := st.stats.errors + k } := by
  rcases hs : mergeTasksLoop f n remote (st.appTasks, st.stats, false) with ⟨a, s1, m1⟩
  obtain ⟨k, hk⟩ := mergeTasksLoop_stats f n remote st.appTasks st.stats false
  rw [hs] at hk
  simp only at hk
  refine ⟨k, ?_⟩
  have hM : merge_tasks f n remote st
      = if m1 = true then save_tasks { st with appTasks := a, stats := s1 }
        else { st with appTasks := a, stats := s1 } := by
    rw [merge_tasks, hs]
  rw [hM]
  split <;> simpa [save_tasks] using hk

/-- Buckets only grow, by appending: the shape invariant of the full-merge
path on `self.app.tasks`. -/
def bucketsExtend (a a' : TaskMap) : Prop :=
  ∀ d l, lookupA a d = some l → ∃ ext, lookupA a' d = some (l ++ ext)

lemma bucketsExtend_refl (a : TaskMap) : bucketsExtend a a :=
  fun _ l h => ⟨[], by simpa using h⟩

lemma bucketsExtend_trans {a b c : TaskMap} (h1 : bucketsExtend a b)
    (h2 : bucketsExtend b c) : bucketsExtend a c := by
  intro d l h
  obtain ⟨e1, he1⟩ := h1 d l h
  obtain ⟨e2, he2⟩ := h2 d _ he1
  exact ⟨e1 ++ e2, by simpa [List.append_assoc] using he2⟩

lemma bucketsExtend_setA_append (a : TaskMap) (d : String) (t : Task) :
    bucketsExtend a (setA a d (((lookupA a d).getD []) ++ [t])) := by
  intro d' l h
  by_cases hd : d' = d
  · subst hd
    refine ⟨[t], ?_⟩
    rw [lookupA_setA_self]
    simp [h]
  · refine ⟨[], ?_⟩
    rw [lookupA_setA_ne _ _ _ _ hd]
    simpa using h

lemma bucketsExtend_mem {a a' : TaskMap} (h : bucketsExtend a a') {d : String}
    {l : List Task} {t : Task} (hd : lookupA a d = some l) (ht : t ∈ l) :
    ∃ l', lookupA a' d = some l' ∧ t ∈ l' := by
  obtain ⟨ext, he⟩ := h d l hd
  exact ⟨l ++ ext, he, List.mem_append_left _ ht⟩

/-- A full-merge iteration either leaves the in-memory map alone (every
branch for an id that exists in the stored snapshot, and the tombstone skip)
or appends one cleaned task to its remote date bucket. -/
lemma fullMergeStep_fst (f n : String) (lmap : List (JVal × (Task × String)))
    (tid : JVal) (r : Task) (rdate : String) (am : TaskMap × Bool) :
    (fullMergeStep f n lmap tid r rdate am).1 = am.1 ∨
    (lookupA lmap tid = none ∧ statusDeleted r = false ∧
      (fullMergeStep f n lmap tid r rdate am).1
        = setA am.1 rdate (((lookupA am.1 rdate).getD []) ++ [clean_remote_task f n r])) := by
  rw [fullMergeStep]
  rcases hl : lookupA lmap tid with _ | lv
  · simp only [hl]
    by_cases hdel : statusDeleted r = true
    · rw [if_pos hdel]
      exact Or.inl (by trivial)
    · rw [if_neg hdel]
      refine Or.inr ⟨?_, ?_, ?_⟩
      · simp [hl]
      · simpa using hdel
      · trivial
  · simp only [hl]
    by_cases hdel2 : statusDeleted r ∧ ¬ statusDeleted lv.1
    · rw [if_pos hdel2]
      exact Or.inl (by trivial)
    · rw [if_neg hdel2]
      rcases hru : updStr r with _ | ru <;> rcases hlu : updStr lv.1 with _ | lu <;>
        simp only [hru, hlu]
      · exact Or.inl (by trivial)
      · exact Or.inl (by trivial)
      · exact Or.inl (by trivial)
      · rcases hpr : parseTimestamp ru with _ | rt <;>
          rcases hpl : parseTimestamp lu with _ | ltv <;> simp only [hpr, hpl]
        · exact Or.inl (by trivial)
        · exact Or.inl (by trivial)
        · exact Or.inl (by trivial)
        · split
          · exact Or.inl (by trivial)
          · exact Or.inl (by trivial)

lemma fullMergeLoop_extends (f n : String)
    (lmap entries : List (JVal × (Task × String))) (am : TaskMap × Bool) :
    bucketsExtend am.1 (fullMergeLoop f n lmap entries am).1 := by
  induction entries generalizing am with
  | nil => exact bucketsExtend_refl _
  | cons e rest ih =>
    obtain ⟨tid, r, rdate⟩ := e
    rw [fullMergeLoop]
    have hrest := ih (fullMergeStep f n lmap tid r rdate am)
    rcases fullMergeStep_fst f n lmap tid r rdate am with h | ⟨_, _, h⟩
    · rw [h] at hrest
      exact hrest
    · rw [h] at hrest
      exact bucketsExtend_trans (bucketsExtend_setA_append _ _ _) hrest

lemma fullMergeLoop_inserts (f n : String) (lmap : List (JVal × (Task × String)))
    (entries : List (JVal × (Task × String))) (am : TaskMap × Bool)
    (tid : JVal) (r : Task) (rdate : String)
    (hmem : (tid, (r, rdate)) ∈ entries)
    (habs : lookupA lmap tid = none) (hdel : statusDeleted r = false) :
    ∃ l', lookupA (fullMergeLoop f n lmap entries am).1 rdate = some l'
      ∧ clean_remote_task f n r ∈ l' := by
  induction entries generalizing am with
  | nil => cases hmem
  | cons e rest ih =>
    rw [fullMergeLoop]
    rcases List.mem_cons.mp hmem with heq | hmem'
    · subst heq
      have hstep : (fullMergeStep f n lmap tid r rdate am).1
          = setA am.1 rdate (((lookupA am.1 rdate).getD []) ++ [clean_remote_task f n r]) := by
        rw [fullMergeStep, habs]
        simp [hdel]
      have hx : lookupA (fullMergeStep f n lmap tid r rdate am).1 rdate
          = some (((lookupA am.1 rdate).getD []) ++ [clean_remote_task f n r]) := by
        rw [hstep]
        exact lookupA_setA_self _ _ _
      have hext := fullMergeLoop_extends f n lmap rest (fullMergeStep f n lmap tid r rdate am)
      exact bucketsExtend_mem hext hx (List.mem_append_right _ (List.mem_singleton_self _))
    · obtain ⟨tid0, r0, rdate0⟩ := e
      exact ih _ hmem'

lemma fullMergeLoop_mem (f n : String)
    (lmap entries : List (JVal × (Task × String))) (am : TaskMap × Bool) :
    ∀ d l' t, lookupA (fullMergeLoop f n lmap entries am).1 d = some l' → t ∈ l' →
      (∃ l, lookupA am.1 d = some l ∧ t ∈ l) ∨
      ∃ tid r, (tid, (r, d)) ∈ entries ∧ lookupA lmap tid = none
        ∧ statusDeleted r = false ∧ t = clean_remote_task f n r := by
  induction entries generalizing am with
  | nil =>
    intro d l' t h ht
    exact Or.inl ⟨l', h, ht⟩
  | cons e rest ih =>
    obtain ⟨tid0, r0, rdate0⟩ := e
    intro d l' t h ht
    rw [fullMergeLoop] at h
    rcases ih (fullMergeStep f n lmap tid0 r0 rdate0 am) d l' t h ht with
      hold | ⟨tid, r, hmem, hrest⟩
    · obtain ⟨l, hl, htl⟩ := hold
      rcases fullMergeStep_fst f n lmap tid0 r0 rdate0 am with hstep | ⟨habs, hdel, hstep⟩
      · rw [hstep] at hl
        exact Or.inl ⟨l, hl, htl⟩
      · rw [hstep] at hl
        by_cases hd : d = rdate0
        · subst hd
          rw [lookupA_setA_self] at hl
          injection hl with hl
          subst hl
          rcases List.mem_append.mp htl with h1 | h2
          · rcases hb : lookupA am.1 d with _ | lb
            · rw [hb] at h1
              simp at h1
            · rw [hb] at h1
              exact Or.inl ⟨lb, rfl, by simpa using h1⟩
          · right
            exact ⟨tid0, r0, List.mem_cons_self _ _, habs, hdel, by simpa using h2⟩
        · rw [lookupA_setA_ne _ _ _ _ hd] at hl
          exact Or.inl ⟨l, hl, htl⟩
    · exact Or.inr ⟨tid, r, List.mem_cons_of_mem _ hmem, hrest⟩

lemma full_merge_tasks_appTasks (f n : String) (remote : TaskMap) (st : SyncState) :
    (full_merge_tasks f n remote st).appTasks
      = (fullMergeLoop f n (buildIdMap st.storage) (buildIdMap remote)
          (st.appTasks, false)).1 := by
  rcases hres : fullMergeLoop f n (buildIdMap st.storage) (buildIdMap remote)
      (st.appTasks, false) with ⟨a, merged⟩
  have h1 : full_merge_tasks f n remote st
      = if merged = true then save_tasks { st with appTasks := a }
        else { st with appTasks := a } := by
    rw [full_merge_tasks, hres]
  rw [h1]
  split <;> rfl

/-- Buckets keep their tasks in place, id-wise, with new tasks only
appended: the shape invariant of the lightweight merge path. -/
def idsExtend (a a' : TaskMap) : Prop :=
  ∀ d l, lookupA a d = some l →
    ∃ l' ext, lookupA a' d = some l' ∧ l'.map Task.id = l.map Task.id ++ ext

lemma idsExtend_refl (a : TaskMap) : idsExtend a a :=
  fun _ l h => ⟨l, [], h, by simp⟩

lemma idsExtend_trans {a b c : TaskMap} (h1 : idsExtend a b) (h2 : idsExtend b c) :
    idsExtend a c := by
  intro d l h
  obtain ⟨l1, e1, hl1, he1⟩ := h1 d l h
  obtain ⟨l2, e2, hl2, he2⟩ := h2 d l1 hl1
  exact ⟨l2, e1 ++ e2, hl2, by rw [he2, he1, List.append_assoc]⟩

lemma overwriteFields_id (r t : Task) : (overwriteFields r t).id = t.id := rfl

lemma mapFirstTask_map_id (tid : JVal) (r : Task) (l : List Task) :
    (mapFirstTask tid (overwriteFields r) l).map Task.id = l.map Task.id := by
  induction l with
  | nil => rfl
  | cons t ts ih =>
    by_cases h : t.id = some tid
    · simp [mapFirstTask, h, overwriteFields_id]
    · simp [mapFirstTask, h, ih]

lemma mergeBucketStep_map_id (f n : String) (ids : List JVal) (r : Task)
    (bucket : List Task) (stats : SyncStats) (merged : Bool) :
    ∃ ext, ((mergeBucketStep f n ids r (bucket, stats, merged)).1).map Task.id
      = bucket.map Task.id ++ ext := by
  rw [mergeBucketStep]
  rcases hr : r.id with _ | rid <;> simp only [hr]
  · exact ⟨[], by simp⟩
  · by_cases ht : ¬ truthy (some rid)
    · rw [if_pos ht]
      exact ⟨[], by simp⟩
    · rw [if_neg ht]
      by_cases hmem : rid ∉ ids
      · rw [if_pos hmem]
        exact ⟨[(clean_remote_task f n r).id], by simp⟩
      · rw [if_neg hmem]
        rcases hf : findTask rid bucket with _ | lt <;> simp only [hf]
        · exact ⟨[], by simp⟩
        · rcases hru : updStr r with _ | ru <;> rcases hlu : updStr lt with _ | lu <;>
            simp only [hru, hlu]
          · exact ⟨[], by simp⟩
          · exact ⟨[], by simp⟩
          · exact ⟨[], by simp [mapFirstTask_map_id]⟩
          · rcases hpr : parseTimestamp ru with _ | rt <;>
              rcases hpl : parseTimestamp lu with _ | ltv <;> simp only [hpr, hpl]
            · exact ⟨[], by simp⟩
            · exact ⟨[], by simp⟩
            · exact ⟨[], by simp⟩
            · split
              · exact ⟨[], by simp [mapFirstTask_map_id]⟩
              · exact ⟨[], by simp⟩

lemma mergeIntoBucket_map_id (f n : String) (ids : List JVal) (remotes : List Task)
    (bucket : List Task) (stats : SyncStats) (merged : Bool) :
    ∃ ext, ((mergeIntoBucket f n ids remotes (bucket, stats, merged)).1).map Task.id
      = bucket.map Task.id ++ ext := by
  induction remotes generalizing bucket stats merged with
  | nil => exact ⟨[], by simp [mergeIntoBucket]⟩
  | cons r rest ih =>
    rw [mergeIntoBucket]
    rcases hs : mergeBucketStep f n ids r (bucket, stats, merged) with ⟨b1, s1, m1⟩
    obtain ⟨e1, he1⟩ := mergeBucketStep_map_id f n ids r bucket stats merged
    rw [hs] at he1
    simp only at he1
    obtain ⟨e2, he2⟩ := ih b1 s1 m1
    exact ⟨e1 ++ e2, by rw [he2, he1, List.append_assoc]⟩

lemma mergeDateStep_idsExtend (f n : String) (d0 : String) (rl : List Task)
    (a : TaskMap) (stats : SyncStats) (merged : Bool) :
    idsExtend a (mergeDateStep f n d0 rl (a, stats, merged)).1 := by
  rw [mergeDateStep]
  rcases hb : lookupA a d0 with _ | bucket <;> simp only [hb]
  · intro d l h
    have hd : d ≠ d0 := by
      rintro rfl
      rw [h] at hb
      cases hb
    refine ⟨l, [], ?_, by simp⟩
    rw [lookupA_setA_ne _ _ _ _ hd]
    simpa using h
  · rcases hres : mergeIntoBucket f n (bucketIds bucket) rl (bucket, stats, merged) with
      ⟨b1, s1, m1⟩
    obtain ⟨e1, he1⟩ := mergeIntoBucket_map_id f n (bucketIds bucket) rl bucket stats merged
    rw [hres] at he1
    simp only at he1
    intro d l h
    by_cases hd : d = d0
    · subst hd
      rw [h] at hb
      have hlb : l = bucket := Option.some.inj hb
      subst hlb
      exact ⟨b1, e1, lookupA_setA_self _ _ _, he1⟩
    · refine ⟨l, [], ?_, by simp⟩
      rw [lookupA_setA_ne _ _ _ _ hd]
      exact h

lemma mergeTasksLoop_idsExtend (f n : String) (entries : TaskMap) (a : TaskMap)
    (stats : SyncStats) (merged : Bool) :
    idsExtend a (mergeTasksLoop f n entries (a, stats, merged)).1 := by
  induction entries generalizing a stats merged with
  | nil => exact idsExtend_refl _
  | cons e rest ih =>
    obtain ⟨d0, rl⟩ := e
    rw [mergeTasksLoop]
    rcases hs : mergeDateStep f n d0 rl (a, stats, merged) with ⟨a1, s1, m1⟩
    have hstep := mergeDateStep_idsExtend f n d0 rl a stats merged
    rw [hs] at hstep
    simp only at hstep
    exact idsExtend_trans hstep (ih a1 s1 m1)

lemma merge_tasks_appTasks (f n : String) (remote : TaskMap) (st : SyncState) :
    (merge_tasks f n remote st).appTasks
      = (mergeTasksLoop f n remote (st.appTasks, st.stats, false)).1 := by
  rcases hs : mergeTasksLoop f n remote (st.appTasks, st.stats, false) with ⟨a, s1, m1⟩
  have hM : merge_tasks f n remote st
      = if m1 = true then save_tasks { st with appTasks := a, stats := s1 }
        else { st with appTasks := a, stats := s1 } := by
    rw [merge_tasks, hs]
  rw [hM]
  split <;> rfl

lemma apply_dispatch_addUpdate (f n : String) (u : Task) (op : String) (st : SyncState)
    (tid : JVal) (d : String) (hid : u.id = some tid) (ht : truthy (some tid) = true)
    (hd : dateOf u = some d) (hop1 : op ≠ "delete") (hop2 : op ≠ "move") :
    apply_task_update f n u op st = applyAddUpdate f n u op tid d st := by
  simp [apply_task_update, hid, hd, ht, hop1, hop2]

lemma apply_dispatch_move (f n : String) (u : Task) (st : SyncState)
    (tid : JVal) (d : String) (hid : u.id = some tid) (ht : truthy (some tid) = true)
    (hd : dateOf u = some d) :
    apply_task_update f n u "move" st = applyMove f n u tid d st := by
  simp [apply_task_update, hid, hd, ht]

lemma applyAddUpdate_applied (f n : String) (u : Task) (op : String) (tid : JVal)
    (d : String) (st : SyncState)
    (h : ∀ lt, findTask tid ((lookupA st.appTasks d).getD []) = some lt →
      (op = "update" && updateSkips u lt) = false) :
    applyAddUpdate f n u op tid d st
      = save_tasks { st with appTasks := setA st.appTasks d (upsertTask tid (clean_remote_task f n u) ((lookupA st.appTasks d).getD [])) } := by
  rw [applyAddUpdate]
  rcases hf : findTask tid ((lookupA st.appTasks d).getD []) with _ | lt
  · simp [hf]
  · simp only [hf]
    rw [h lt hf]
    simp

lemma updateSkips_eq_true (u lt : Task) (ru lu : String) (rt ltv : Nat)
    (hru : updStr u = some ru) (hlu : updStr lt = some lu)
    (hpr : parseTimestamp ru = some rt) (hpl : parseTimestamp lu = some ltv)
    (hle : rt ≤ ltv) : updateSkips u lt = true := by
  simp only [updateSkips, hru, hlu, hpr, hpl]
  simpa using hle

lemma updateSkips_eq_false_of_newer (u lt : Task) (ru lu : String) (rt ltv : Nat)
    (hru : updStr u = some ru) (hlu : updStr lt = some lu)
    (hpr : parseTimestamp ru = some rt) (hpl : parseTimestamp lu = some ltv)
    (hgt : ltv < rt) : updateSkips u lt = false := by
  simp only [updateSkips, hru, hlu, hpr, hpl]
  simpa using Nat.not_le.mpr hgt

lemma updateSkips_eq_false_of_missing (u lt : Task)
    (h : updStr u = none ∨ updStr lt = none) : updateSkips u lt = false := by
  rcases hru : updStr u with _ | ru
  · simp [updateSkips, hru]
  · rcases hlu : updStr lt with _ | lu
    · simp [updateSkips, hru, hlu]
    · rcases h with h | h
      · rw [hru] at h
        cases h
      · rw [hlu] at h
        cases h

lemma updateSkips_eq_false_of_parse_fail (u lt : Task) (ru lu : String)
    (hru : updStr u = some ru) (hlu : updStr lt = some lu)
    (h : parseTimestamp ru = none ∨ parseTimestamp lu = none) :
    updateSkips u lt = false := by
  simp only [updateSkips, hru, hlu]
  rcases hpr : parseTimestamp ru with _ | rt
  · simp [hpr]
  · rcases hpl : parseTimestamp lu with _ | ltv
    · simp [hpr, hpl]
    · rcases h with h | h
      · rw [hpr] at h
        cases h
      · rw [hpl] at h
        cases h

/-- C9: `_clean_remote_task` fills each missing field with its documented
default — a missing id becomes the freshly generated identifier, a missing
color the fixed hex value "#4CAF50", missing created_at/updated_at the
current time — and preserves every field that is already present (the other
defaults are description "No description", profile_name "Unknown", alarm
false, alarm_time null, acknowledged false; time, status, date and old_date
are never touched). -/
theorem c9_clean_remote_task_defaults (freshId now : String) (t : Task) :
    (clean_remote_task freshId now t).id = (t.id <|> some (.str freshId)) ∧
    (clean_remote_task freshId now t).description
      = (t.description <|> some (.str "No description")) ∧
    (clean_remote_task freshId now t).color = (t.color <|> some (.str "#4CAF50")) ∧
    (clean_remote_task freshId now t).profile_name
      = (t.profile_name <|> some (.str "Unknown")) ∧
    (clean_remote_task freshId now t).created_at = (t.created_at <|> some (.str now)) ∧
    (clean_remote_task freshId now t).updated_at = (t.updated_at <|> some (.str now)) ∧
    (clean_remote_task freshId now t).alarm = (t.alarm <|> some (.bool false)) ∧
    (clean_remote_task freshId now t).alarm_time = (t.alarm_time <|> some .null) ∧
    (clean_remote_task freshId now t).acknowledged
      = (t.acknowledged <|> some (.bool false)) ∧
    (clean_remote_task freshId now t).time = t.time ∧
    (clean_remote_task freshId now t).status = t.status ∧
    (clean_remote_task freshId now t).date = t.date ∧
    (clean_remote_task freshId now t).old_date = t.old_date := by
  refine ⟨?_, ?_, ?_, ?_, ?_, ?_, ?_, ?_, ?_, rfl, rfl, rfl, rfl⟩
  · rcases h : t.id with _ | v <;> simp [clean_remote_task, h]
  · rcases h : t.description with _ | v <;> simp [clean_remote_task, h]
  · rcases h : t.color with _ | v <;> simp [clean_remote_task, h]
  · rcases h : t.profile_name with _ | v <;> simp [clean_remote_task, h]
  · rcases h : t.created_at with _ | v <;> simp [clean_remote_task, h]
  · rcases h : t.updated_at with _ | v <;> simp [clean_remote_task, h]
  · rcases h : t.alarm with _ | v <;> simp [clean_remote_task, h]
  · rcases h : t.alarm_time with _ | v <;> simp [clean_remote_task, h]
  · rcases h : t.acknowledged with _ | v <;> simp [clean_remote_task, h]

/-- C8: after a stale-peer sweep, every peer whose parsed lastSeen lies
strictly before the cutoff (sweep time minus 120 seconds, in microseconds)
is gone, every peer seen at or after the cutoff survives, and sweeping an
empty directory returns the empty directory. -/
theorem c8_stale_peer_sweep (now : Int) (peers : List (String × PeerRecord)) :
    (∀ k p ts, (k, p) ∈ peers → parseTimestamp p.last_seen = some ts →
      (ts : Int) < now - 120 * 1000000 → (k, p) ∉ cleanup_stale_peers now peers) ∧
    (∀ k p ts, (k, p) ∈ peers → parseTimestamp p.last_seen = some ts →
      now - 120 * 1000000 ≤ (ts : Int) → (k, p) ∈ cleanup_stale_peers now peers) ∧
    cleanup_stale_peers now [] = [] := by
  refine ⟨?_, ?_, rfl⟩
  · intro k p ts hm hp hlt hmem
    rw [cleanup_stale_peers] at hmem
    have hcond := (List.mem_filter.mp hmem).2
    rw [hp] at hcond
    simp at hcond
    omega
  · intro k p ts hm hp hle
    rw [cleanup_stale_peers]
    refine List.mem_filter.mpr ⟨hm, ?_⟩
    rw [hp]
    simpa using hle

/-- C8 witness: a concrete sweep at 10:04 with a peer last seen at 10:00
(removed), one at 10:03 (kept), and an empty directory. -/
theorem c8_stale_peer_sweep_witness :
    ((("a" : String), ({ last_seen := "2024-01-01T10:00:00" } : PeerRecord)) ∉
      cleanup_stale_peers 63839700240000000
        [("a", { last_seen := "2024-01-01T10:00:00" }), ("b", { last_seen := "2024-01-01T10:03:00" })]) ∧
    ((("b" : String), ({ last_seen := "2024-01-01T10:03:00" } : PeerRecord)) ∈
      cleanup_stale_peers 63839700240000000
        [("a", { last_seen := "2024-01-01T10:00:00" }), ("b", { last_seen := "2024-01-01T10:03:00" })]) ∧
    cleanup_stale_peers 63839700240000000 ([] : List (String × PeerRecord)) = [] := by
  have h := c8_stale_peer_sweep 63839700240000000
    [("a", { last_seen := "2024-01-01T10:00:00" }), ("b", { last_seen := "2024-01-01T10:03:00" })]
  refine ⟨h.1 "a" _ 63839700000000000 (by decide) (by decide) (by decide),
    h.2.1 "b" _ 63839700180000000 (by decide) (by decide) (by decide), h.2.2⟩

/-- C10 (amended): the lightweight `sync_response` merge never removes a
task: every bucket that existed before still maps to a list whose id
sequence extends the old one (fields of existing tasks, including status,
may have been overwritten by a newer remote copy). -/
theorem c10_merge_tasks_preserves (freshId now : String) (remote : TaskMap)
    (st : SyncState) (d : String) (l : List Task)
    (h : lookupA st.appTasks d = some l) :
    ∃ l' ext, lookupA (merge_tasks freshId now remote st).appTasks d = some l'
      ∧ l'.map Task.id = l.map Task.id ++ ext := by
  rw [merge_tasks_appTasks]
  exact mergeTasksLoop_idsExtend freshId now remote st.appTasks st.stats false d l h

/-- C10 witness: a concrete bucket with one task survives a lightweight
merge that field-updates it. -/
theorem c10_merge_tasks_preserves_witness :
    ∃ l' ext,
      lookupA (merge_tasks "w10f" "w10n"
          [("2024-03-01", [{ id := some (.str "t1"), status := some (.str "DELETED"), updated_at := some (.str "2024-01-02T10:00:00") }])]
          { appTasks := [("2024-03-01", [{ id := some (.str "t1"), status := some (.str "ACTIVE"), updated_at := some (.str "2024-01-01T10:00:00") }])]
            storage := []
            stats := {} }).appTasks "2024-03-01" = some l'
        ∧ l'.map Task.id
          = [{ id := some (.str "t1"), status := some (.str "ACTIVE"), updated_at := some (.str "2024-01-01T10:00:00") }].map Task.id ++ ext :=
  c10_merge_tasks_preserves "w10f" "w10n" _ _ "2024-03-01" _ rfl

/-- The concrete tasks of C10's counterexample: a newer remote copy carrying
status DELETED. -/
def c10Local : Task :=
  { id := some (.str "t1")
    status := some (.str "ACTIVE")
    updated_at := some (.str "2024-01-01T10:00:00") }

def c10Remote : Task :=
  { id := some (.str "t1")
    status := some (.str "DELETED")
    updated_at := some (.str "2024-01-02T10:00:00") }

def c10State : SyncState :=
  { appTasks := [("2024-03-01", [c10Local])]
    storage := [("2024-03-01", [c10Local])]
    stats := {} }

/-- C10 counterexample: the lightweight merge path DOES mark a local task
DELETED — a newer remote copy with status DELETED overwrites the local
status through the field-copy loop, refuting the "never marks one DELETED"
part of the claim. -/
theorem c10_counterexample :
    statusDeleted c10Local = false ∧
    (lookupA (merge_tasks "c10f" "c10n" [("2024-03-01", [c10Remote])] c10State).appTasks
        "2024-03-01").map (fun l => l.map statusDeleted) = some [true] := by
  constructor
  · decide
  · decide

/-- The concrete state of C1: the same live task in the in-memory map and in
storage, and a remote tombstone for it. -/
def c1Local : Task :=
  { id := some (.str "t1")
    status := some (.str "ACTIVE")
    updated_at := some (.str "2024-01-01T10:00:00")
    description := some (.str "local") }

def c1Remote : Task :=
  { id := some (.str "t1")
    status := some (.str "DELETED")
    updated_at := some (.str "2024-01-02T10:00:00")
    date := some (.str "2024-03-01") }

def c1State : SyncState :=
  { appTasks := [("2024-03-01", [c1Local])]
    storage := [("2024-03-01", [c1Local])]
    stats := {} }

/-- C1: evaluating the full merge at a remote tombstone for a live local
task.  The claim (and the spec) say the local record ends up DELETED after
the merge and persistence; the code marks DELETED only on the transient
dicts parsed from the ICS file by `get_all_tasks_with_metadata`, and
`save_tasks` then persists the untouched `self.app.tasks`, so both the
in-memory record and the persisted record still carry status ACTIVE. -/
theorem c1_full_merge_tombstone_not_persisted :
    statusDeleted c1Remote = true ∧ statusDeleted c1Local = false ∧
    (full_merge_tasks "c1f" "c1n" [("2024-03-01", [c1Remote])] c1State).storage
      = [("2024-03-01", [c1Local])] ∧
    (full_merge_tasks "c1f" "c1n" [("2024-03-01", [c1Remote])] c1State).appTasks
      = [("2024-03-01", [c1Local])] := by
  refine ⟨by decide, by decide, by decide, by decide⟩

/-- The concrete move of C3's counterexample: old_date equal to the new
date. -/
def c3Task0 : Task :=
  { id := some (.str "t1")
    description := some (.str "x") }

def c3Move : Task :=
  { id := some (.str "t1")
    date := some (.str "2024-05-05")
    old_date := some (.str "2024-05-05")
    updated_at := some (.str "2024-01-01T00:00:00") }

def c3State : SyncState :=
  { appTasks := [("2024-05-05", [c3Task0])]
    storage := [("2024-05-05", [c3Task0])]
    stats := {} }

/-- C3 counterexample: a `move` whose old_date equals the new date first
inserts the task into the bucket and then filters it straight back out,
leaving the task in NO bucket (the whole map becomes empty) — refuting the
claim's "never in neither bucket" for this input. -/
theorem c3_counterexample :
    c3Move.old_date = c3Move.date ∧
    (apply_task_update "c3f" "c3n" c3Move "move" c3State).appTasks = [] ∧
    (apply_task_update "c3f" "c3n" c3Move "move" c3State).storage = [] := by
  refine ⟨rfl, by decide, by decide⟩

/-- C3 (amended): for a `move` whose old date differs from the new date, the
task (cleaned) is present in the new date bucket, absent from the old date
bucket, every other bucket is untouched, and the result is persisted. -/
theorem c3_move_exactly_new_bucket (freshId now : String) (u : Task)
    (st : SyncState) (tid : JVal) (nd od : String)
    (hid : u.id = some tid) (ht : truthy (some tid) = true)
    (hd : dateOf u = some nd) (hod : getStr? u.old_date = some od) (hne : od ≠ nd) :
    (findTask tid ((lookupA (apply_task_update freshId now u "move" st).appTasks nd).getD [])
        = some (clean_remote_task freshId now u)) ∧
    (∀ t ∈ (lookupA (apply_task_update freshId now u "move" st).appTasks od).getD [],
        t.id ≠ some tid) ∧
    (∀ d', d' ≠ nd → d' ≠ od →
        lookupA (apply_task_update freshId now u "move" st).appTasks d'
          = lookupA st.appTasks d') ∧
    ((apply_task_update freshId now u "move" st).storage
        = (apply_task_update freshId now u "move" st).appTasks) := by
  have hA := apply_dispatch_move freshId now u st tid nd hid ht hd
  rw [hA]
  have hM : applyMove freshId now u tid nd st
      = save_tasks { st with appTasks := moveRemoveOld tid od (moveInsert freshId now u tid nd st.appTasks) } := by
    simp [applyMove, hod]
  rw [hM]
  have hm1 : lookupA (moveInsert freshId now u tid nd st.appTasks) nd
      = some (upsertTask tid (clean_remote_task freshId now u)
          ((lookupA st.appTasks nd).getD [])) := by
    rw [moveInsert]
    exact lookupA_setA_self _ _ _
  refine ⟨?_, ?_, ?_, rfl⟩
  · have h1 : lookupA (moveRemoveOld tid od (moveInsert freshId now u tid nd st.appTasks)) nd
        = some (upsertTask tid (clean_remote_task freshId now u)
            ((lookupA st.appTasks nd).getD [])) := by
      rw [lookupA_moveRemoveOld_ne tid od nd _ (Ne.symm hne)]
      exact hm1
    simp only [save_tasks]
    rw [h1, Option.getD_some]
    exact findTask_upsertTask_self _ _ _ (clean_remote_task_id freshId now u tid hid)
  · simp only [save_tasks]
    rcases hob : lookupA (moveInsert freshId now u tid nd st.appTasks) od with _ | ob
    · have h2 : moveRemoveOld tid od (moveInsert freshId now u tid nd st.appTasks)
          = moveInsert freshId now u tid nd st.appTasks := by
        simp only [moveRemoveOld, hob]
      rw [h2, hob]
      intro t htm
      simp at htm
    · by_cases hlen : (removeTask tid ob).length = 0
      · have h2 : moveRemoveOld tid od (moveInsert freshId now u tid nd st.appTasks)
            = removeA (moveInsert freshId now u tid nd st.appTasks) od := by
          simp only [moveRemoveOld, hob]
          simp [hlen]
        rw [h2, lookupA_removeA_self]
        intro t htm
        simp at htm
      · have h2 : moveRemoveOld tid od (moveInsert freshId now u tid nd st.appTasks)
            = setA (moveInsert freshId now u tid nd st.appTasks) od (removeTask tid ob) := by
          simp only [moveRemoveOld, hob]
          simp [hlen]
        rw [h2, lookupA_setA_self, Option.getD_some]
        intro t htm
        exact mem_removeTask_ne tid ob t htm
  · intro d' hnd hod'
    simp only [save_tasks]
    rw [lookupA_moveRemoveOld_ne tid od d' _ hod', moveInsert,
      lookupA_setA_ne _ _ _ _ hnd]

/-- The concrete move of C3's witness: distinct old and new dates. -/
def c3wMove : Task :=
  { id := some (.str "t1")
    date := some (.str "2024-06-06")
    old_date := some (.str "2024-05-05") }

def c3wState : SyncState :=
  { appTasks := [("2024-05-05", [{ id := some (.str "t1"), description := some (.str "x") }])]
    storage := []
    stats := {} }

/-- C3 witness: a concrete move from 2024-05-05 to 2024-06-06. -/
theorem c3_move_exactly_new_bucket_witness :
    (findTask (.str "t1")
        ((lookupA (apply_task_update "w3f" "w3n" c3wMove "move" c3wState).appTasks
          "2024-06-06").getD []) = some (clean_remote_task "w3f" "w3n" c3wMove)) ∧
    (∀ t ∈ (lookupA (apply_task_update "w3f" "w3n" c3wMove "move" c3wState).appTasks
        "2024-05-05").getD [], t.id ≠ some (.str "t1")) ∧
    (∀ d', d' ≠ "2024-06-06" → d' ≠ "2024-05-05" →
      lookupA (apply_task_update "w3f" "w3n" c3wMove "move" c3wState).appTasks d'
        = lookupA c3wState.appTasks d') ∧
    ((apply_task_update "w3f" "w3n" c3wMove "move" c3wState).storage
        = (apply_task_update "w3f" "w3n" c3wMove "move" c3wState).appTasks) :=
  c3_move_exactly_new_bucket "w3f" "w3n" c3wMove c3wState (.str "t1") "2024-06-06"
    "2024-05-05" rfl (by decide) (by decide) (by decide) (by decide)

/-- C4 (amended): the single-task reconciliation path `_apply_task_update`
is idempotent for every operation string (add, update, delete, move, or any
unrecognized operation) and every starting state; with fixed fresh-uuid and
now inputs, applying the same message twice equals applying it once. -/
theorem c4_apply_task_update_idempotent (freshId now : String) (u : Task)
    (operation : String) (st : SyncState) :
    apply_task_update freshId now u operation
        (apply_task_update freshId now u operation st)
      = apply_task_update freshId now u operation st := by
  rcases hid : u.id with _ | tid
  · have h0 : apply_task_update freshId now u operation st = st := by
      simp [apply_task_update, hid]
    rw [h0]
    exact h0
  · rcases hd : dateOf u with _ | d
    · have h0 : apply_task_update freshId now u operation st = st := by
        simp [apply_task_update, hid, hd]
      rw [h0]
      exact h0
    · by_cases ht : truthy (some tid) = true
      · by_cases hdel : operation = "delete"
        · subst hdel
          have hA : ∀ s, apply_task_update freshId now u "delete" s = applyDelete tid d s := by
            intro s
            simp [apply_task_update, hid, hd, ht]
          rw [hA, hA]
          exact applyDelete_idem tid d st
        · by_cases hmv : operation = "move"
          · subst hmv
            have hA : ∀ s, apply_task_update freshId now u "move" s
                = applyMove freshId now u tid d s :=
              fun s => apply_dispatch_move freshId now u s tid d hid ht hd
            rw [hA, hA]
            exact applyMove_idem freshId now u tid d st hid
          · have hA : ∀ s, apply_task_update freshId now u operation s
                = applyAddUpdate freshId now u operation tid d s :=
              fun s => apply_dispatch_addUpdate freshId now u operation s tid d hid ht hd hdel hmv
            rw [hA, hA]
            exact applyAddUpdate_idem freshId now u operation tid d st hid
      · have h0 : apply_task_update freshId now u operation st = st := by
          simp [apply_task_update, hid, hd, ht]
        rw [h0]
        exact h0

/-- The C4 counterexample state: a tombstone for t1 in the ICS storage, not
in the in-memory map (exactly what `load_tasks`, which skips DELETED
entries, produces at startup), and a full_sync update for t1 that is newer
than the tombstone. -/
def c4Tomb : Task :=
  { id := some (.str "t1")
    status := some (.str "DELETED")
    updated_at := some (.str "2024-01-01T00:00:00") }

def c4Upd : Task :=
  { id := some (.str "t1")
    status := some (.str "ACTIVE")
    updated_at := some (.str "2024-01-02T00:00:00")
    date := some (.str "2024-01-01") }

def c4State : SyncState :=
  { appTasks := []
    storage := [("2024-01-01", [c4Tomb])]
    stats := {} }

/-- C4 counterexample: a `task_update` message with operation full_sync is
NOT idempotent.  The first application finds t1 in the stored snapshot,
flags `merged`, and `save_tasks` overwrites storage with the (empty)
in-memory map; the second application no longer finds t1 in storage and
inserts it — so applying the message twice yields a different task map than
applying it once. -/
theorem c4_counterexample :
    (handle_task_update "me" "c4f" "c4n" "peer" (some c4Upd) (some "full_sync")
        c4State).appTasks = [] ∧
    (handle_task_update "me" "c4f" "c4n" "peer" (some c4Upd) (some "full_sync")
        (handle_task_update "me" "c4f" "c4n" "peer" (some c4Upd) (some "full_sync")
          c4State)).appTasks
      = [("2024-01-01", [clean_remote_task "c4f" "c4n" c4Upd])] ∧
    (handle_task_update "me" "c4f" "c4n" "peer" (some c4Upd) (some "full_sync")
        (handle_task_update "me" "c4f" "c4n" "peer" (some c4Upd) (some "full_sync")
          c4State)).appTasks
      ≠ (handle_task_update "me" "c4f" "c4n" "peer" (some c4Upd) (some "full_sync")
          c4State).appTasks := by
  refine ⟨by decide, by decide, by decide⟩

/-- C2 (amended): the add/update path inserts a cleaned copy when the id is
absent from the target bucket; when a task with the id exists, operation
`update` is a no-op exactly when both `updated_at` values are truthy and
parseable and the remote is not strictly newer; a strictly newer remote, a
missing or unparseable timestamp, or any non-update operation (such as
`add`) overwrites the local task with the cleaned remote copy
unconditionally. -/
theorem c2_add_update_lww (freshId now : String) (u : Task) (op : String)
    (st : SyncState) (tid : JVal) (d : String)
    (hid : u.id = some tid) (ht : truthy (some tid) = true) (hd : dateOf u = some d)
    (hop1 : op ≠ "delete") (hop2 : op ≠ "move") :
    (findTask tid ((lookupA st.appTasks d).getD []) = none →
      lookupA (apply_task_update freshId now u op st).appTasks d
        = some ((((lookupA st.appTasks d).getD [])) ++ [clean_remote_task freshId now u])) ∧
    (∀ lt ru lu rt ltv, findTask tid ((lookupA st.appTasks d).getD []) = some lt →
      op = "update" → updStr u = some ru → updStr lt = some lu →
      parseTimestamp ru = some rt → parseTimestamp lu = some ltv → rt ≤ ltv →
      apply_task_update freshId now u op st = st) ∧
    (∀ lt ru lu rt ltv, findTask tid ((lookupA st.appTasks d).getD []) = some lt →
      op = "update" → updStr u = some ru → updStr lt = some lu →
      parseTimestamp ru = some rt → parseTimestamp lu = some ltv → ltv < rt →
      findTask tid ((lookupA (apply_task_update freshId now u op st).appTasks d).getD [])
        = some (clean_remote_task freshId now u)) ∧
    (∀ lt, findTask tid ((lookupA st.appTasks d).getD []) = some lt →
      op = "update" → (updStr u = none ∨ updStr lt = none) →
      findTask tid ((lookupA (apply_task_update freshId now u op st).appTasks d).getD [])
        = some (clean_remote_task freshId now u)) ∧
    (∀ lt ru lu, findTask tid ((lookupA st.appTasks d).getD []) = some lt →
      op = "update" → updStr u = some ru → updStr lt = some lu →
      (parseTimestamp ru = none ∨ parseTimestamp lu = none) →
      findTask tid ((lookupA (apply_task_update freshId now u op st).appTasks d).getD [])
        = some (clean_remote_task freshId now u)) ∧
    (∀ lt, findTask tid ((lookupA st.appTasks d).getD []) = some lt →
      op ≠ "update" →
      findTask tid ((lookupA (apply_task_update freshId now u op st).appTasks d).getD [])
        = some (clean_remote_task freshId now u)) := by
  have hA := apply_dispatch_addUpdate freshId now u op st tid d hid ht hd hop1 hop2
  have hcid := clean_remote_task_id freshId now u tid hid
  have happly : (∀ lt, findTask tid ((lookupA st.appTasks d).getD []) = some lt →
      (op = "update" && updateSkips u lt) = false) →
      lookupA (apply_task_update freshId now u op st).appTasks d
        = some (upsertTask tid (clean_remote_task freshId now u)
            ((lookupA st.appTasks d).getD [])) := by
    intro hfalse
    rw [hA, applyAddUpdate_applied freshId now u op tid d st hfalse]
    simp only [save_tasks]
    exact lookupA_setA_self _ _ _
  refine ⟨?_, ?_, ?_, ?_, ?_, ?_⟩
  · intro hf
    have h1 := happly (fun lt hlt => by rw [hf] at hlt; cases hlt)
    rw [h1, upsertTask_of_findTask_none tid _ _ hf]
  · intro lt ru lu rt ltv hf hop hru hlu hpr hpl hle
    subst hop
    rw [hA, applyAddUpdate]
    simp only [hf]
    rw [updateSkips_eq_true u lt ru lu rt ltv hru hlu hpr hpl hle]
    simp
  · intro lt ru lu rt ltv hf hop hru hlu hpr hpl hgt
    subst hop
    have h1 := happly (fun lt' hlt' => by
      rw [hf] at hlt'
      injection hlt' with he
      subst he
      rw [updateSkips_eq_false_of_newer u lt ru lu rt ltv hru hlu hpr hpl hgt]
      simp)
    rw [h1, Option.getD_some]
    exact findTask_upsertTask_self _ _ _ hcid
  · intro lt hf hop hmiss
    subst hop
    have h1 := happly (fun lt' hlt' => by
      rw [hf] at hlt'
      injection hlt' with he
      subst he
      rw [updateSkips_eq_false_of_missing u lt hmiss]
      simp)
    rw [h1, Option.getD_some]
    exact findTask_upsertTask_self _ _ _ hcid
  · intro lt ru lu hf hop hru hlu hpf
    subst hop
    have h1 := happly (fun lt' hlt' => by
      rw [hf] at hlt'
      injection hlt' with he
      subst he
      rw [updateSkips_eq_false_of_parse_fail u lt ru lu hru hlu hpf]
      simp)
    rw [h1, Option.getD_some]
    exact findTask_upsertTask_self _ _ _ hcid
  · intro lt hf hop
    have h1 := happly (fun lt' _ => by simp [hop])
    rw [h1, Option.getD_some]
    exact findTask_upsertTask_self _ _ _ hcid

/-- The C2 counterexample data: a local task with a newer timestamp and an
`add` carrying a strictly older remote copy. -/
def c2Local : Task :=
  { id := some (.str "t1")
    updated_at := some (.str "2024-01-01T10:00:00")
    description := some (.str "local") }

def c2Remote : Task :=
  { id := some (.str "t1")
    date := some (.str "2024-03-01")
    updated_at := some (.str "2024-01-01T09:00:00")
    description := some (.str "remote") }

def c2State : SyncState :=
  { appTasks := [("2024-03-01", [c2Local])]
    storage := [("2024-03-01", [c2Local])]
    stats := {} }

/-- C2 counterexample: an `add` whose remote copy has a STRICTLY OLDER
`updated_at` than the existing local task still overwrites the local copy
(the timestamp guard only runs for operation `update`), refuting the claim
that remote fields are applied only when strictly newer or when the local
timestamp is absent. -/
theorem c2_counterexample :
    ((parseTimestamp "2024-01-01T09:00:00").isSome ∧
      (parseTimestamp "2024-01-01T10:00:00").isSome ∧
      (parseTimestamp "2024-01-01T09:00:00").getD 0
        < (parseTimestamp "2024-01-01T10:00:00").getD 0) ∧
    (apply_task_update "c2f" "c2n" c2Remote "add" c2State).appTasks
      ≠ c2State.appTasks ∧
    (lookupA (apply_task_update "c2f" "c2n" c2Remote "add" c2State).appTasks
        "2024-03-01").map (fun l => l.map Task.description)
      = some [some (.str "remote")] := by
  refine ⟨by decide, by decide, by decide⟩

/-- The C2 witness data: an `update` carrying a strictly older remote copy
is a no-op. -/
def c2wLocal : Task :=
  { id := some (.str "t1")
    updated_at := some (.str "2024-01-01T10:00:00") }

def c2wRemote : Task :=
  { id := some (.str "t1")
    date := some (.str "2024-03-01")
    updated_at := some (.str "2024-01-01T09:00:00") }

def c2wState : SyncState :=
  { appTasks := [("2024-03-01", [c2wLocal])]
    storage := [("2024-03-01", [c2wLocal])]
    stats := {} }

/-- C2 witness: the no-op conjunct applied at a concrete older remote
update. -/
theorem c2_add_update_lww_witness :
    apply_task_update "w2f" "w2n" c2wRemote "update" c2wState = c2wState :=
  (c2_add_update_lww "w2f" "w2n" c2wRemote "update" c2wState (.str "t1") "2024-03-01"
      rfl (by decide) (by decide) (by decide) (by decide)).2.1
    c2wLocal "2024-01-01T09:00:00" "2024-01-01T10:00:00"
    63839696400000000 63839700000000000
    (by decide) rfl (by decide) (by decide) (by decide) (by decide) (by decide)

/-- C5: during full reconciliation, (1) every pre-existing in-memory bucket
only grows by appending — the full merge never deletes local-only data;
(2) every remote task whose id is absent from the stored snapshot and whose
status is not DELETED is inserted (cleaned) under its remote date bucket;
(3) every task of the merged map either was already present in the same
bucket or is the cleaned copy of a non-DELETED remote task absent locally —
in particular a remote tombstone for an id absent locally never creates a
local record. -/
theorem c5_full_merge_absent (freshId now : String) (remote : TaskMap)
    (st : SyncState) :
    (∀ d l, lookupA st.appTasks d = some l →
      ∃ ext, lookupA (full_merge_tasks freshId now remote st).appTasks d
        = some (l ++ ext)) ∧
    (∀ tid r rdate, (tid, (r, rdate)) ∈ buildIdMap remote →
      lookupA (buildIdMap st.storage) tid = none → statusDeleted r = false →
      ∃ l', lookupA (full_merge_tasks freshId now remote st).appTasks rdate = some l'
        ∧ clean_remote_task freshId now r ∈ l') ∧
    (∀ d l' t, lookupA (full_merge_tasks freshId now remote st).appTasks d = some l' →
      t ∈ l' →
      (∃ l, lookupA st.appTasks d = some l ∧ t ∈ l) ∨
      ∃ tid r, (tid, (r, d)) ∈ buildIdMap remote
        ∧ lookupA (buildIdMap st.storage) tid = none
        ∧ statusDeleted r = false ∧ t = clean_remote_task freshId now r) := by
  refine ⟨?_, ?_, ?_⟩
  · intro d l h
    rw [full_merge_tasks_appTasks]
    exact fullMergeLoop_extends freshId now (buildIdMap st.storage) (buildIdMap remote)
      (st.appTasks, false) d l h
  · intro tid r rdate hmem habs hdel
    rw [full_merge_tasks_appTasks]
    exact fullMergeLoop_inserts freshId now (buildIdMap st.storage) (buildIdMap remote)
      (st.appTasks, false) tid r rdate hmem habs hdel
  · intro d l' t h htl
    rw [full_merge_tasks_appTasks] at h
    exact fullMergeLoop_mem freshId now (buildIdMap st.storage) (buildIdMap remote)
      (st.appTasks, false) d l' t h htl

/-- The C5 witness data: one local-only task, one insertable remote task and
one remote tombstone for an absent id. -/
def c5Old : Task :=
  { id := some (.str "t0")
    description := some (.str "keep") }

def c5New : Task :=
  { id := some (.str "t9")
    status := some (.str "ACTIVE") }

def c5Dead : Task :=
  { id := some (.str "t8")
    status := some (.str "DELETED") }

def c5Remote : TaskMap := [("2024-07-07", [c5New, c5Dead])]

def c5State : SyncState :=
  { appTasks := [("2024-07-01", [c5Old])]
    storage := []
    stats := {} }

/-- C5 witness: the local-only bucket survives unchanged (up to appending)
and the live absent remote task is inserted under its remote date. -/
theorem c5_full_merge_absent_witness :
    (∃ ext, lookupA (full_merge_tasks "w5f" "w5n" c5Remote c5State).appTasks
      "2024-07-01" = some ([c5Old] ++ ext)) ∧
    (∃ l', lookupA (full_merge_tasks "w5f" "w5n" c5Remote c5State).appTasks
      "2024-07-07" = some l' ∧ clean_remote_task "w5f" "w5n" c5New ∈ l') :=
  ⟨(c5_full_merge_absent "w5f" "w5n" c5Remote c5State).1 "2024-07-01" [c5Old] (by decide),
    (c5_full_merge_absent "w5f" "w5n" c5Remote c5State).2.1 (.str "t9") c5New
      "2024-07-07" (by decide) (by decide) (by decide)⟩

/-- C6 (amended): an unparseable `updated_at` during reconciliation never
touches SyncStats in the single-task path nor in the full merge path; the
lightweight `sync_response` merge is the only path that counts such
failures, it bumps `errors` by exactly one per failed comparison, it never
records the date in `error_dates` (the source appends to `error_dates` only
in the outer exception handler), the affected task is left unchanged, and
reconciliation of the remaining tasks in the batch continues. -/
theorem c6_parse_failure_stats (f n : String) (u : Task) (op : String)
    (remote : TaskMap) (st : SyncState) (d : String) (l : List Task)
    (r r2 lt : Task) (rid rid2 : JVal) (ru lu : String) :
    ((apply_task_update f n u op st).stats = st.stats) ∧
    ((full_merge_tasks f n remote st).stats = st.stats) ∧
    (∃ k, (merge_tasks f n remote st).stats
      = { st.stats with errors := st.stats.errors + k }) ∧
    (lookupA st.appTasks d = some l →
      r.id = some rid → truthy (some rid) = true → rid ∈ bucketIds l →
      findTask rid l = some lt → updStr r = some ru → updStr lt = some lu →
      (parseTimestamp ru = none ∨ parseTimestamp lu = none) →
      r2.id = some rid2 → truthy (some rid2) = true → rid2 ∉ bucketIds l →
      (merge_tasks f n [(d, [r, r2])] st).stats.errors = st.stats.errors + 1 ∧
      (merge_tasks f n [(d, [r, r2])] st).stats.error_dates = st.stats.error_dates ∧
      lookupA (merge_tasks f n [(d, [r, r2])] st).appTasks d
        = some (l ++ [clean_remote_task f n r2])) := by
  refine ⟨apply_task_update_stats f n u op st, full_merge_tasks_stats f n remote st,
    merge_tasks_stats f n remote st, ?_⟩
  intro hb hrid htr hmem hf hru hlu hpf hid2 htr2 hnmem
  have hstep1 : mergeBucketStep f n (bucketIds l) r (l, st.stats, false)
      = (l, { st.stats with errors := st.stats.errors + 1 }, false) := by
    rw [mergeBucketStep]
    simp only [hrid, htr, hmem, hf, hru, hlu]
    rcases hpf with hp | hp
    · rcases hq : parseTimestamp lu with _ | q <;> simp [hp, hq]
    · rcases hq : parseTimestamp ru with _ | q <;> simp [hp, hq]
  have hstep2 : mergeBucketStep f n (bucketIds l) r2
      (l, { st.stats with errors := st.stats.errors + 1 }, false)
      = (l ++ [clean_remote_task f n r2],
          { st.stats with errors := st.stats.errors + 1 }, true) := by
    rw [mergeBucketStep]
    simp [hid2, htr2, hnmem]
  have hbkt : mergeIntoBucket f n (bucketIds l) [r, r2] (l, st.stats, false)
      = (l ++ [clean_remote_task f n r2],
          { st.stats with errors := st.stats.errors + 1 }, true) := by
    rw [mergeIntoBucket, hstep1, mergeIntoBucket, hstep2, mergeIntoBucket]
  have hdstep : mergeDateStep f n d [r, r2] (st.appTasks, st.stats, false)
      = (setA st.appTasks d (l ++ [clean_remote_task f n r2]),
          { st.stats with errors := st.stats.errors + 1 }, true) := by
    rw [mergeDateStep]
    simp only [hb, hbkt]
  have hloop : mergeTasksLoop f n [(d, [r, r2])] (st.appTasks, st.stats, false)
      = (setA st.appTasks d (l ++ [clean_remote_task f n r2]),
          { st.stats with errors := st.stats.errors + 1 }, true) := by
    rw [mergeTasksLoop, hdstep, mergeTasksLoop]
  have hfinal : merge_tasks f n [(d, [r, r2])] st
      = save_tasks { st with
          appTasks := setA st.appTasks d (l ++ [clean_remote_task f n r2]),
          stats := { st.stats with errors := st.stats.errors + 1 } } := by
    rw [merge_tasks, hloop]
    rfl
  rw [hfinal]
  refine ⟨rfl, rfl, ?_⟩
  simp only [save_tasks]
  exact lookupA_setA_self _ _ _

/-- The C6 counterexample data: both `updated_at` values fail to parse in an
`update` for an existing task. -/
def c6Local : Task :=
  { id := some (.str "t1")
    updated_at := some (.str "garbage") }

def c6Remote : Task :=
  { id := some (.str "t1")
    date := some (.str "2024-04-04")
    updated_at := some (.str "also-bad")
    description := some (.str "rem") }

def c6State : SyncState :=
  { appTasks := [("2024-04-04", [c6Local])]
    storage := [("2024-04-04", [c6Local])]
    stats := {} }

/-- C6 counterexample: a failed timestamp comparison in the `task_update`
path increments nothing and records nothing — errors stays 0, errorDates
stays empty, while the update is applied anyway — refuting the claim that
every unparseable-timestamp comparison increments `errors` and appends the
date to `errorDates`. -/
theorem c6_counterexample :
    parseTimestamp "also-bad" = none ∧ parseTimestamp "garbage" = none ∧
    (apply_task_update "c6f" "c6n" c6Remote "update" c6State).stats.errors = 0 ∧
    (apply_task_update "c6f" "c6n" c6Remote "update" c6State).stats.error_dates = [] ∧
    (apply_task_update "c6f" "c6n" c6Remote "update" c6State).appTasks
      ≠ c6State.appTasks := by
  refine ⟨by decide, by decide, by decide, by decide, by decide⟩

/-- The C6 witness data: one unparseable comparison and one new insertable
task in the same lightweight-merge batch. -/
def c6wLt : Task :=
  { id := some (.str "t1")
    updated_at := some (.str "garbage") }

def c6wBad : Task :=
  { id := some (.str "t1")
    updated_at := some (.str "also-bad") }

def c6wNew : Task :=
  { id := some (.str "t9")
    description := some (.str "new") }

def c6wState : SyncState :=
  { appTasks := [("2024-04-04", [c6wLt])]
    storage := []
    stats := {} }

/-- C6 witness: the errors counter is bumped by exactly one, the date list
is untouched, and the second task of the batch is still merged. -/
theorem c6_parse_failure_stats_witness :
    (merge_tasks "w6f" "w6n" [("2024-04-04", [c6wBad, c6wNew])] c6wState).stats.errors
      = c6wState.stats.errors + 1 ∧
    (merge_tasks "w6f" "w6n" [("2024-04-04", [c6wBad, c6wNew])] c6wState).stats.error_dates
      = c6wState.stats.error_dates ∧
    lookupA (merge_tasks "w6f" "w6n"
        [("2024-04-04", [c6wBad, c6wNew])] c6wState).appTasks "2024-04-04"
      = some ([c6wLt] ++ [clean_remote_task "w6f" "w6n" c6wNew]) :=
  (c6_parse_failure_stats "w6f" "w6n" {} "x" [] c6wState "2024-04-04" [c6wLt]
      c6wBad c6wNew c6wLt (.str "t1") (.str "t9") "also-bad" "garbage").2.2.2
    (by decide) (by decide) (by decide) (by decide) (by decide) (by decide)
    (by decide) (Or.inl (by decide)) (by decide) (by decide) (by decide)

lemma apply_task_update_invalid (f n : String) (u : Task) (op : String)
    (st : SyncState) (h : truthy u.id = false ∨ dateOf u = none) :
    apply_task_update f n u op st = st := by
  rcases hid : u.id with _ | tid
  · simp [apply_task_update, hid]
  · rcases hd : dateOf u with _ | d
    · simp [apply_task_update, hid, hd]
    · rcases h with h | h
      · rw [hid] at h
        simp [apply_task_update, hid, hd, h]
      · rw [h] at hd
        cases hd

lemma buildIdMap_single_untruthy (d : String) (t : Task) (h : truthy t.id = false) :
    buildIdMap [(d, [t])] = [] := by
  rcases hid : t.id with _ | tid
  · simp [buildIdMap, hid]
  · rw [hid] at h
    simp [buildIdMap, hid, h]

lemma full_merge_tasks_empty_rmap (f n : String) (remote : TaskMap) (st : SyncState)
    (h : buildIdMap remote = []) : full_merge_tasks f n remote st = st := by
  rw [full_merge_tasks, h]
  simp [fullMergeLoop]

lemma handle_task_update_invalid_maps (selfName f n sender : String) (t : Task)
    (operation : Option String) (st : SyncState)
    (h : truthy t.id = false ∨ dateOf t = none) :
    (handle_task_update selfName f n sender (some t) operation st).appTasks
        = st.appTasks ∧
    (handle_task_update selfName f n sender (some t) operation st).storage
        = st.storage := by
  rw [handle_task_update]
  split
  · exact ⟨rfl, rfl⟩
  · by_cases hop : operation.getD "update" = "full_sync"
    · have hid : truthy t.id = false ∨ dateOf t = none := h
      by_cases hsend : sender ≠ selfName
      · rcases hdt : dateOf t with _ | dd
        · simp [hop, hsend, hdt]
        · have hidf : truthy t.id = false := by
            rcases h with h | h
            · exact h
            · rw [h] at hdt
              cases hdt
          have hm := full_merge_tasks_empty_rmap f n [(dd, [t])]
            { st with stats := { st.stats with received := st.stats.received + 1 } }
            (buildIdMap_single_untruthy dd t hidf)
          simp [hop, hsend, hdt, hm]
      · rcases hdt : dateOf t with _ | dd
        · simp [hop, hsend, hdt]
        · have hidf : truthy t.id = false := by
            rcases h with h | h
            · exact h
            · rw [h] at hdt
              cases hdt
          have hm := full_merge_tasks_empty_rmap f n [(dd, [t])] st
            (buildIdMap_single_untruthy dd t hidf)
          simp [hop, hsend, hdt, hm]
    · have ha := apply_task_update_invalid f n t (operation.getD "update") st h
      simp [hop, ha]

/-- C7: malformed inbound payloads are dropped without touching the task
state — an envelope `json.loads` rejects changes nothing, and a
`task_update` whose task is missing a truthy id or date leaves both the
in-memory map and the persisted map untouched (no partial application; the
dispatcher is a total function, so it cannot crash). -/
theorem c7_malformed_dropped (selfName freshId now : String)
    (msg : Option SyncMessage) (st : SyncState) :
    (handle_message selfName freshId now none st = st) ∧
    (∀ m t, msg = some m → m.mtype = some "task_update" → m.task = some t →
      (truthy t.id = false ∨ dateOf t = none) →
      (handle_message selfName freshId now msg st).appTasks = st.appTasks ∧
      (handle_message selfName freshId now msg st).storage = st.storage) := by
  refine ⟨rfl, ?_⟩
  intro m t hm hmt htask hbad
  subst hm
  have hroute : handle_message selfName freshId now (some m) st
      = handle_task_update selfName freshId now m.sender m.task m.operation st := by
    simp only [handle_message, hmt]
    rw [if_neg (by decide), if_neg (by decide)]
    simp
  rw [hroute, htask]
  exact handle_task_update_invalid_maps selfName freshId now m.sender t m.operation st hbad

/-- The C7 witness data: a task_update whose task has an id but no date. -/
def c7Msg : SyncMessage :=
  { mtype := some "task_update"
    sender := "peer"
    task := some { id := some (.str "t1") }
    operation := some "update" }

def c7State : SyncState :=
  { appTasks := [("2024-08-08", [{ id := some (.str "t2") }])]
    storage := [("2024-08-08", [{ id := some (.str "t2") }])]
    stats := {} }

/-- C7 witness: an undecodable envelope and a date-less task_update at a
concrete state. -/
theorem c7_malformed_dropped_witness :
    (handle_message "me" "w7f" "w7n" none c7State = c7State) ∧
    (handle_message "me" "w7f" "w7n" (some c7Msg) c7State).appTasks
      = c7State.appTasks ∧
    (handle_message "me" "w7f" "w7n" (some c7Msg) c7State).storage
      = c7State.storage := by
  have h := c7_malformed_dropped "me" "w7f" "w7n" (some c7Msg) c7State
  have h2 := h.2 c7Msg { id := some (.str "t1") } rfl rfl rfl (Or.inr (by decide))
  exact ⟨h.1, h2.1, h2.2⟩

end CaLAN
